import Mathlib

/-!
# Mattave ray tracer: sphere intersection and material scattering

A shallow embedding of `MacRayTracing/sphere3.h` and `MacRayTracing/material.h`.

Numbers: the C++ `float` is idealised as an arbitrary linear ordered field `F`
(the rationals for evaluation, the reals for the geometric statements).  The
library square root is an explicit argument `sqrt : F → F` of every function
that calls it; theorems that depend on what a square root is assume `SqrtSpec sqrt`.

Output parameters (`trace_record& rec`, `vec3& albedo`, `ray3& scattered`,
`float& pdf`, `vec3& refracted`) are modelled by state passing: the function
receives the caller's value and returns the value after the call next to the
`bool` result.  The random draws (`random_in_unit_sphere()`, `random()`) are
explicit arguments.
-/

namespace Mattave

variable {F : Type} [LinearOrderedField F] {M : Type}

/-! ## Vector and ray algebra (external collaborator) -/

/-- Modelled from the spec: the 3-vector of the vector algebra library (`vec3`, whose
header is not part of the sources): three scalar components. -/
structure vec3 (F : Type) where
  x : F
  y : F
  z : F

namespace vec3

/-- Modelled from the spec: vector addition `u + v` of the absent vector library,
componentwise. -/
def add (u v : vec3 F) : vec3 F := ⟨u.x + v.x, u.y + v.y, u.z + v.z⟩

/-- Modelled from the spec: vector subtraction `u - v` of the absent vector library,
componentwise. -/
def sub (u v : vec3 F) : vec3 F := ⟨u.x - v.x, u.y - v.y, u.z - v.z⟩

/-- Modelled from the spec: unary minus `-v` of the absent vector library. -/
def neg (v : vec3 F) : vec3 F := ⟨-v.x, -v.y, -v.z⟩

/-- Modelled from the spec: scaling `t * v` (and `v * t`) of the absent vector library. -/
def scale (t : F) (v : vec3 F) : vec3 F := ⟨t * v.x, t * v.y, t * v.z⟩

/-- Modelled from the spec: division by a scalar `v / t` of the absent vector library,
componentwise. -/
def divs (v : vec3 F) (t : F) : vec3 F := ⟨v.x / t, v.y / t, v.z / t⟩

instance : Add (vec3 F) := ⟨add⟩

instance : Sub (vec3 F) := ⟨sub⟩

instance : Neg (vec3 F) := ⟨neg⟩

instance : HMul F (vec3 F) (vec3 F) := ⟨scale⟩

instance : HMul (vec3 F) F (vec3 F) := ⟨fun v t => scale t v⟩

instance : HDiv (vec3 F) F (vec3 F) := ⟨divs⟩

/-- Modelled from the spec: the member `length()` of the absent vector library, the
Euclidean norm computed with the library square root. -/
def length (sqrt : F → F) (v : vec3 F) : F := sqrt (v.x * v.x + v.y * v.y + v.z * v.z)

end vec3

/-- Modelled from the spec: the dot product `dot(u, v)` of the absent vector library. -/
def dot (u v : vec3 F) : F := u.x * v.x + u.y * v.y + u.z * v.z

/-- Modelled from the spec: unit-vector normalization `unit_vector(v)` of the absent
vector library, `v / v.length()`. -/
def unit_vector (sqrt : F → F) (v : vec3 F) : vec3 F := v / v.length sqrt

/-- Modelled from the spec: the ray of the absent `ray3.h`: origin, direction (not
required to be normalized) and a scalar time; `ray3(o, d, t)` stores its arguments. -/
structure ray3 (F : Type) where
  origin : vec3 F
  direction : vec3 F
  time : F

/-- Modelled from the spec: `ray.at(t)` (`point_at_parameter` of the absent `ray3.h`),
the point `origin + t * direction`. -/
def ray3.point_at_parameter (r : ray3 F) (t : F) : vec3 F := r.origin + t * r.direction

/-- Modelled from the spec: the hit record of the absent `trace_record.h`: parametric
distance, hit position, normal, texture coordinate and a non-owning material
reference (an abstract handle of type `M`). -/
structure trace_record (F : Type) (M : Type) where
  t : F
  position : vec3 F
  normal : vec3 F
  texcoord : vec3 F
  mat : M

/-! ## `sphere3.h` -/

/-- The sphere of `sphere3.h`: `center`, `radius`, `velocity`, and the material
pointer `mat` inherited from `object3`. -/
structure sphere3 (F : Type) (M : Type) where
  center : vec3 F
  radius : F
  mat : M
  velocity : vec3 F

/-- The method `sphere3::getCenter`: `center + velocity * time`. -/
def sphere3.getCenter (s : sphere3 F M) (time : F) : vec3 F := s.center + s.velocity * time

/-- The method `sphere3::trace`.  Returns the `bool` result together with the record
`rec` after the call. -/
def sphere3.trace (sqrt : F → F) (s : sphere3 F M) (r : ray3 F) (t_min t_max : F)
    (record : trace_record F M) : Bool × trace_record F M :=
  let centert := s.getCenter r.time
  let oc := r.origin - centert
  let a := dot r.direction r.direction
  let b := dot oc r.direction
  let c := dot oc oc - s.radius * s.radius
  let discriminant := b * b - a * c
  if discriminant > 0 then
    let temp := (-b - sqrt discriminant) / a
    if temp < t_max ∧ temp > t_min then
      let rec1 := { record with t := temp }
      let rec2 := { rec1 with position := r.point_at_parameter rec1.t }
      let rec3 := { rec2 with normal := (rec2.position - centert) / s.radius }
      (true, { rec3 with mat := s.mat })
    else
      let temp := (-b + sqrt discriminant) / a
      if temp < t_max ∧ temp > t_min then
        let rec1 := { record with t := temp }
        let rec2 := { rec1 with position := r.point_at_parameter rec1.t }
        let rec3 := { rec2 with normal := (rec2.position - centert) / s.radius }
        (true, { rec3 with mat := s.mat })
      else
        (false, record)
  else
    (false, record)

/-! ## `material.h` -/

/-- Modelled from the spec: the texture collaborator (`texture.h` is not part of the
sources), used only through `sample(surface_coordinate, world_position) → color`,
a pure function. -/
abbrev texture (F : Type) := vec3 F → vec3 F → vec3 F

/-- The three output parameters of `material::scatter` (`vec3& albedo`,
`ray3& scattered`, `float& pdf`), as the caller holds them. -/
structure scatter_out (F : Type) where
  attenuation : vec3 F
  scattered : ray3 F
  pdf : F

/-- The method `material::scatter_pdf`.  Its declared return type is `bool`, so the
`float` value `cosine / ONE_PI` is converted on return: `true` exactly when it is
non-zero. -/
def material.scatter_pdf (sqrt : F → F) (ONE_PI : F) (_r_in : ray3 F)
    (record : trace_record F M) (scattered : ray3 F) : Bool :=
  let cosine := dot record.normal (unit_vector sqrt scattered.direction)
  let cosine := if cosine < 0 then 0 else cosine
  decide (cosine / ONE_PI ≠ 0)

/-- The method `isotropic::emit`. -/
def isotropic.emit (_u _v : F) (_p : vec3 F) : vec3 F := ⟨0, 0, 0⟩

/-- The method `lambertian::emit`. -/
def lambertian.emit (_u _v : F) (_p : vec3 F) : vec3 F := ⟨0, 0, 0⟩

/-- The method `transmissive::emit`. -/
def transmissive.emit (_u _v : F) (_p : vec3 F) : vec3 F := ⟨0, 0, 0⟩

/-- The method `metal::emit`. -/
def metal.emit (_u _v : F) (_p : vec3 F) : vec3 F := ⟨0, 0, 0⟩

/-- The method `dielectric::emit`. -/
def dielectric.emit (_u _v : F) (_p : vec3 F) : vec3 F := ⟨0, 0, 0⟩

/-- The method `diffuse_texlight::emit(texcoord, position)`. -/
def diffuse_texlight.emit (color : texture F) (texcoord position : vec3 F) : vec3 F :=
  color texcoord position

/-- The method `isotropic::scatter`; `rnd` is the value of `random_in_unit_sphere()`. -/
def isotropic.scatter (albedo : texture F) (r_in : ray3 F) (record : trace_record F M)
    (rnd : vec3 F) (out : scatter_out F) : Bool × scatter_out F :=
  let out1 := { out with scattered := ray3.mk record.position rnd r_in.time }
  let out2 := { out1 with attenuation := albedo record.texcoord record.position }
  (true, out2)

/-- The method `lambertian::scatter`; `rnd` is the value of `random_in_unit_sphere()`,
`ONE_PI` the constant of that name (defined outside the sources). -/
def lambertian.scatter (sqrt : F → F) (ONE_PI : F) (albedo : texture F) (r_in : ray3 F)
    (record : trace_record F M) (rnd : vec3 F) (out : scatter_out F) : Bool × scatter_out F :=
  let target := record.position + record.normal + rnd
  let out1 := { out with scattered := ray3.mk record.position (target - record.position) r_in.time }
  let out2 := { out1 with attenuation := albedo record.texcoord record.position }
  let out3 := { out2 with
    pdf := dot record.normal (unit_vector sqrt out2.scattered.direction) / ONE_PI }
  (true, out3)

/-- The method `transmissive::schlick`. -/
def transmissive.schlick (cosine ior : F) : F :=
  let r0 := (1 - ior) / (1 + ior)
  let r0 := r0 * r0
  r0 + (1 - r0) * (1 - cosine) ^ 5

/-- The method `transmissive::reflect`. -/
def transmissive.reflect (v n : vec3 F) : vec3 F := v - 2 * dot v n * n

/-- The method `transmissive::refract`; returns the `bool` result and the value of
the output parameter `refracted` after the call. -/
def transmissive.refract (sqrt : F → F) (v n : vec3 F) (ni_over_nt : F) (refracted : vec3 F) :
    Bool × vec3 F :=
  let uv := unit_vector sqrt v
  let dt := dot uv n
  let discriminant := 1 - ni_over_nt * ni_over_nt * (1 - dt * dt)
  if discriminant > 0 then
    (true, ni_over_nt * (uv - n * dt) - n * sqrt discriminant)
  else
    (false, refracted)

/-- The method `transmissive::scatter2`; `u` is the value of `random()` and
`refracted0` the indeterminate initial value of the local `refracted`. -/
def transmissive.scatter2 (sqrt : F → F) (albedo : texture F) (ior : F) (r_in : ray3 F)
    (record : trace_record F M) (u : F) (refracted0 : vec3 F) (out : scatter_out F) :
    Bool × scatter_out F :=
  let reflected := transmissive.reflect r_in.direction record.normal
  let out1 := { out with attenuation := albedo record.texcoord record.position }
  let out2 := { out1 with pdf := 1 }
  let branch : vec3 F × F × F :=
    if dot r_in.direction record.normal > 0 then
      (-record.normal, ior,
        ior * dot r_in.direction record.normal / r_in.direction.length sqrt)
    else
      (record.normal, 1 / ior,
        -dot r_in.direction record.normal / r_in.direction.length sqrt)
  let outward_normal := branch.1
  let ni_over_nt := branch.2.1
  let cosine := branch.2.2
  let refr := transmissive.refract sqrt r_in.direction outward_normal ni_over_nt refracted0
  let refracted := refr.2
  let reflect_prob := if refr.1 then transmissive.schlick cosine ior else 1
  if u < reflect_prob then
    (true, { out2 with scattered := ray3.mk record.position reflected r_in.time })
  else
    (true, { out2 with scattered := ray3.mk record.position refracted r_in.time })

/-- The method `transmissive::scatter`. -/
def transmissive.scatter (sqrt : F → F) (albedo : texture F) (ior : F) (r_in : ray3 F)
    (record : trace_record F M) (u : F) (refracted0 : vec3 F) (out : scatter_out F) :
    Bool × scatter_out F :=
  transmissive.scatter2 sqrt albedo ior r_in record u refracted0 out

/-- The method `metal::reflect`. -/
def metal.reflect (v n : vec3 F) : vec3 F := v - 2 * dot v n * n

/-- The method `metal::scatter`; `rnd` is the value of `random_in_unit_sphere()`. -/
def metal.scatter (sqrt : F → F) (albedo : vec3 F) (fuzz : F) (r_in : ray3 F)
    (record : trace_record F M) (rnd : vec3 F) (out : scatter_out F) : Bool × scatter_out F :=
  let reflected := metal.reflect (unit_vector sqrt r_in.direction) record.normal
  let out1 := { out with scattered := ray3.mk record.position (reflected + fuzz * rnd) r_in.time }
  let out2 := { out1 with attenuation := albedo }
  let out3 := { out2 with pdf := 1 }
  (decide (dot out3.scattered.direction record.normal > 0), out3)

/-- The method `dielectric::schlick`. -/
def dielectric.schlick (cosine ior : F) : F :=
  let r0 := (1 - ior) / (1 + ior)
  let r0 := r0 * r0
  r0 + (1 - r0) * (1 - cosine) ^ 5

/-- The method `dielectric::reflect`. -/
def dielectric.reflect (v n : vec3 F) : vec3 F := v - 2 * dot v n * n

/-- The method `dielectric::refract`; returns the `bool` result and the value of the
output parameter `refracted` after the call. -/
def dielectric.refract (sqrt : F → F) (v n : vec3 F) (ni_over_nt : F) (refracted : vec3 F) :
    Bool × vec3 F :=
  let uv := unit_vector sqrt v
  let dt := dot uv n
  let discriminant := 1 - ni_over_nt * ni_over_nt * (1 - dt * dt)
  if discriminant > 0 then
    (true, ni_over_nt * (uv - n * dt) - n * sqrt discriminant)
  else
    (false, refracted)

/-- The method `dielectric::scatter2`; `u` is the value of `random()` and
`refracted0` the indeterminate initial value of the local `refracted`. -/
def dielectric.scatter2 (sqrt : F → F) (albedo : vec3 F) (ior : F) (r_in : ray3 F)
    (record : trace_record F M) (u : F) (refracted0 : vec3 F) (out : scatter_out F) :
    Bool × scatter_out F :=
  let reflected := dielectric.reflect r_in.direction record.normal
  let out1 := { out with attenuation := albedo }
  let out2 := { out1 with pdf := 1 }
  let branch : vec3 F × F × F :=
    if dot r_in.direction record.normal > 0 then
      (-record.normal, ior,
        ior * dot r_in.direction record.normal / r_in.direction.length sqrt)
    else
      (record.normal, 1 / ior,
        -dot r_in.direction record.normal / r_in.direction.length sqrt)
  let outward_normal := branch.1
  let ni_over_nt := branch.2.1
  let cosine := branch.2.2
  let refr := dielectric.refract sqrt r_in.direction outward_normal ni_over_nt refracted0
  let refracted := refr.2
  let reflect_prob := if refr.1 then dielectric.schlick cosine ior else 1
  if u < reflect_prob then
    (true, { out2 with scattered := ray3.mk record.position reflected r_in.time })
  else
    (true, { out2 with scattered := ray3.mk record.position refracted r_in.time })

/-- The method `dielectric::scatter`. -/
def dielectric.scatter (sqrt : F → F) (albedo : vec3 F) (ior : F) (r_in : ray3 F)
    (record : trace_record F M) (u : F) (refracted0 : vec3 F) (out : scatter_out F) :
    Bool × scatter_out F :=
  dielectric.scatter2 sqrt albedo ior r_in record u refracted0 out

/-- The value of the local `reflect_prob` of `dielectric::scatter2` at the point where
it is compared with `random()`: the same statements as `scatter2` up to that
comparison. -/
def dielectric.reflect_prob (sqrt : F → F) (ior : F) (r_in : ray3 F)
    (record : trace_record F M) (refracted0 : vec3 F) : F :=
  let branch : vec3 F × F × F :=
    if dot r_in.direction record.normal > 0 then
      (-record.normal, ior,
        ior * dot r_in.direction record.normal / r_in.direction.length sqrt)
    else
      (record.normal, 1 / ior,
        -dot r_in.direction record.normal / r_in.direction.length sqrt)
  let outward_normal := branch.1
  let ni_over_nt := branch.2.1
  let cosine := branch.2.2
  let refr := dielectric.refract sqrt r_in.direction outward_normal ni_over_nt refracted0
  if refr.1 then dielectric.schlick cosine ior else 1

/-- The method `diffuse_light::scatter`: writes nothing and returns `false`. -/
def diffuse_light.scatter (_color : vec3 F) (_r_in : ray3 F) (_record : trace_record F M)
    (out : scatter_out F) : Bool × scatter_out F :=
  (false, out)

/-- The method `diffuse_light::emit`. -/
def diffuse_light.emit (color : vec3 F) (_u _v : F) (_p : vec3 F) : vec3 F := color

/-- The method `diffuse_texlight::scatter`: writes nothing and returns `false`. -/
def diffuse_texlight.scatter (_color : texture F) (_r_in : ray3 F) (_record : trace_record F M)
    (out : scatter_out F) : Bool × scatter_out F :=
  (false, out)

/-- The material family of `material.h`, one constructor per subclass, carrying the
members set by that subclass's constructor. -/
inductive material (F : Type) where
  | isotropic (albedo : texture F)
  | lambertian (albedo : texture F)
  | transmissive (albedo : texture F) (ior : F)
  | metal (albedo : vec3 F) (fuzz : F)
  | dielectric (albedo : vec3 F) (ior : F)
  | diffuse_light (color : vec3 F)
  | diffuse_texlight (color : texture F)

/-- Virtual dispatch of `material::scatter`.  `rnd` is the value a call of
`random_in_unit_sphere()` returns, `u` the value a call of `random()` returns. -/
def material.scatter (sqrt : F → F) (ONE_PI : F) (m : material F) (r_in : ray3 F)
    (record : trace_record F M) (rnd : vec3 F) (u : F) (refracted0 : vec3 F)
    (out : scatter_out F) : Bool × scatter_out F :=
  match m with
  | .isotropic albedo => isotropic.scatter albedo r_in record rnd out
  | .lambertian albedo => lambertian.scatter sqrt ONE_PI albedo r_in record rnd out
  | .transmissive albedo ior => transmissive.scatter sqrt albedo ior r_in record u refracted0 out
  | .metal albedo fuzz => metal.scatter sqrt albedo fuzz r_in record rnd out
  | .dielectric albedo ior => dielectric.scatter sqrt albedo ior r_in record u refracted0 out
  | .diffuse_light color => diffuse_light.scatter color r_in record out
  | .diffuse_texlight color => diffuse_texlight.scatter color r_in record out

/-! ## Vocabulary of the statements -/

/-- What a square root is: on non-negative arguments the result is non-negative and
squares to the argument. -/
def SqrtSpec (sqrt : F → F) : Prop := ∀ x : F, 0 ≤ x → 0 ≤ sqrt x ∧ sqrt x * sqrt x = x

/-- Coefficient `a = dot(d, d)` of the quadratic `a·t² + 2b·t + c = 0`. -/
def quad_a (r : ray3 F) : F := dot r.direction r.direction

/-- Coefficient `b = dot(oc, d)` with `oc = origin - center(ray.time)`. -/
def quad_b (s : sphere3 F M) (r : ray3 F) : F :=
  dot (r.origin - s.getCenter r.time) r.direction

/-- Coefficient `c = dot(oc, oc) - r²` with `oc = origin - center(ray.time)`. -/
def quad_c (s : sphere3 F M) (r : ray3 F) : F :=
  dot (r.origin - s.getCenter r.time) (r.origin - s.getCenter r.time) - s.radius * s.radius

/-- The discriminant `b² - a·c`. -/
def quad_disc (s : sphere3 F M) (r : ray3 F) : F :=
  quad_b s r * quad_b s r - quad_a r * quad_c s r

/-- The root `(-b - sqrt(disc)) / a`. -/
def root_minus (sqrt : F → F) (s : sphere3 F M) (r : ray3 F) : F :=
  (-quad_b s r - sqrt (quad_disc s r)) / quad_a r

/-- The root `(-b + sqrt(disc)) / a`. -/
def root_plus (sqrt : F → F) (s : sphere3 F M) (r : ray3 F) : F :=
  (-quad_b s r + sqrt (quad_disc s r)) / quad_a r

/-- Membership in the open window `(t_min, t_max)`. -/
@[reducible] def in_window (t_min t_max t : F) : Prop := t_min < t ∧ t < t_max

/-- The record `sphere3::trace` leaves behind when it accepts the parameter `t`:
`t`, `position = ray.at(t)`, `normal = (position - center(ray.time)) / radius` and
the sphere's material; the texture coordinate is not written. -/
def hit_record (s : sphere3 F M) (r : ray3 F) (record : trace_record F M) (t : F) :
    trace_record F M :=
  { t := t
    position := r.point_at_parameter t
    normal := (r.point_at_parameter t - s.getCenter r.time) / s.radius
    texcoord := record.texcoord
    mat := s.mat }

/-- The zero vector. -/
def vzero : vec3 F := ⟨0, 0, 0⟩

/-- A record with every numeric field zero, as a caller may hold before a call. -/
def blank_record : trace_record F Unit := ⟨0, vzero, vzero, vzero, ()⟩

/-- The unit sphere at the origin, at rest. -/
def unit_sphere : sphere3 F Unit := ⟨vzero, 1, (), vzero⟩

/-- The ray from `(0,0,-5)` in direction `(0,0,1)`, at time 0. -/
def ray_through : ray3 F := ⟨⟨0, 0, -5⟩, ⟨0, 0, 1⟩, 0⟩

/-- The ray from `(0,0,-5)` in direction `(0,1,0)`, at time 0. -/
def ray_parallel : ray3 F := ⟨⟨0, 0, -5⟩, ⟨0, 1, 0⟩, 0⟩

/-- The relative index `ni/nt` that `scatter2` picks: `ior` when
`dot(in.direction, normal) > 0` (hit from inside), `1/ior` otherwise. -/
def relative_index (ior : F) (d n : vec3 F) : F := if 0 < dot d n then ior else 1 / ior

/-- The effective normal that `scatter2` picks: flipped when
`dot(in.direction, normal) > 0`, the normal as-is otherwise. -/
def effective_normal (d n : vec3 F) : vec3 F := if 0 < dot d n then -n else n

/-- The refraction discriminant `1 - (ni/nt)^2 * (1 - cos^2)`, with `cos` the dot
product of the unit incoming direction and the effective normal. -/
def snell_disc (sqrt : F → F) (ior : F) (d n : vec3 F) : F :=
  1 - relative_index ior d n ^ 2 * (1 - dot (unit_vector sqrt d) (effective_normal d n) ^ 2)

/-- The refracted direction for unit incoming direction `uv`, normal `n`, relative
index `k`: `k * (uv - n * dot(uv, n)) - n * sqrt(disc)`. -/
def snell_refracted (sqrt : F → F) (k : F) (uv n : vec3 F) : vec3 F :=
  k * (uv - n * dot uv n) - n * sqrt (1 - k ^ 2 * (1 - dot uv n ^ 2))

/-- The cosine that `scatter2` passes to `schlick`: `ior * dot(d, n) / |d|` when
`dot(d, n) > 0`, and `-dot(d, n) / |d|` otherwise. -/
def schlick_cosine (sqrt : F → F) (ior : F) (d n : vec3 F) : F :=
  if 0 < dot d n then ior * dot d n / d.length sqrt else -dot d n / d.length sqrt

/-- The density the specification gives for `scatter_pdf`:
`max(0, dot(normal, unit(scattered.direction))) / pi`, with `pi` the constant the
code divides by. -/
def scatter_pdf_spec (sqrt : F → F) (ONE_PI : F) (record : trace_record F M)
    (scattered : ray3 F) : F :=
  max 0 (dot record.normal (unit_vector sqrt scattered.direction)) / ONE_PI

/-- Every channel of a color lies in `[0, 1]`. -/
def channels_in_unit (c : vec3 F) : Prop :=
  (0 ≤ c.x ∧ c.x ≤ 1) ∧ (0 ≤ c.y ∧ c.y ≤ 1) ∧ (0 ≤ c.z ∧ c.z ≤ 1)

/-- The number a C++ `bool` stands for when a caller uses it as a `float`. -/
def bool_as_float (b : Bool) : F := if b then 1 else 0

/-- A scattered ray leaving the origin along `(0,1,0)`. -/
def ray_up : ray3 F := ⟨vzero, ⟨0, 1, 0⟩, 0⟩

/-- A record at the origin with normal `(0,1,0)`. -/
def floor_record : trace_record F Unit := ⟨0, vzero, ⟨0, 1, 0⟩, vzero, ()⟩

/-- Output parameters holding zeros, as a caller may pass them. -/
def blank_out : scatter_out F := ⟨vzero, ⟨vzero, vzero, 0⟩, 0⟩

/-- A grazing incoming ray: direction `(24,-7,0)` (length 25) towards the surface
with normal `(0,1,0)`. -/
def ray_grazing : ray3 F := ⟨⟨-24, 7, 0⟩, ⟨24, -7, 0⟩, 0⟩

/-- A ray leaving the surface with normal `(0,1,0)` from inside: direction `(4,3,0)`
(length 5). -/
def ray_inside : ray3 F := ⟨⟨-4, -3, 0⟩, ⟨4, 3, 0⟩, 0⟩

/-! ## Shared lemmas -/

namespace vec3

@[simp] theorem add_x (u v : vec3 F) : (u + v).x = u.x + v.x := rfl
@[simp] theorem add_y (u v : vec3 F) : (u + v).y = u.y + v.y := rfl
@[simp] theorem add_z (u v : vec3 F) : (u + v).z = u.z + v.z := rfl
@[simp] theorem sub_x (u v : vec3 F) : (u - v).x = u.x - v.x := rfl
@[simp] theorem sub_y (u v : vec3 F) : (u - v).y = u.y - v.y := rfl
@[simp] theorem sub_z (u v : vec3 F) : (u - v).z = u.z - v.z := rfl
@[simp] theorem neg_x (v : vec3 F) : (-v).x = -v.x := rfl
@[simp] theorem neg_y (v : vec3 F) : (-v).y = -v.y := rfl
@[simp] theorem neg_z (v : vec3 F) : (-v).z = -v.z := rfl
@[simp] theorem smul_x (t : F) (v : vec3 F) : (t * v).x = t * v.x := rfl
@[simp] theorem smul_y (t : F) (v : vec3 F) : (t * v).y = t * v.y := rfl
@[simp] theorem smul_z (t : F) (v : vec3 F) : (t * v).z = t * v.z := rfl
@[simp] theorem muls_x (v : vec3 F) (t : F) : (v * t).x = t * v.x := rfl
@[simp] theorem muls_y (v : vec3 F) (t : F) : (v * t).y = t * v.y := rfl
@[simp] theorem muls_z (v : vec3 F) (t : F) : (v * t).z = t * v.z := rfl
@[simp] theorem div_x (v : vec3 F) (t : F) : (v / t).x = v.x / t := rfl
@[simp] theorem div_y (v : vec3 F) (t : F) : (v / t).y = v.y / t := rfl
@[simp] theorem div_z (v : vec3 F) (t : F) : (v / t).z = v.z / t := rfl

omit [LinearOrderedField F] in
theorem ext_comp {u v : vec3 F} (hx : u.x = v.x) (hy : u.y = v.y) (hz : u.z = v.z) : u = v := by
  cases u; cases v; simp_all

end vec3

theorem dot_self_nonneg (v : vec3 F) : 0 ≤ dot v v := by
  unfold dot; nlinarith [mul_self_nonneg v.x, mul_self_nonneg v.y, mul_self_nonneg v.z]

theorem dot_self_pos {v : vec3 F} (hv : v ≠ vzero) : 0 < dot v v := by
  rcases lt_or_eq_of_le (dot_self_nonneg v) with h | h
  · exact h
  · exfalso
    apply hv
    unfold dot at h
    have hx := mul_self_nonneg v.x
    have hy := mul_self_nonneg v.y
    have hz := mul_self_nonneg v.z
    have ex : v.x * v.x = 0 := by linarith
    have ey : v.y * v.y = 0 := by linarith
    have ez : v.z * v.z = 0 := by linarith
    exact vec3.ext_comp (mul_self_eq_zero.mp ex) (mul_self_eq_zero.mp ey) (mul_self_eq_zero.mp ez)

theorem SqrtSpec.pos {sqrt : F → F} (hs : SqrtSpec sqrt) {x : F} (hx : 0 < x) : 0 < sqrt x := by
  obtain ⟨h0, h1⟩ := hs x hx.le
  rcases lt_or_eq_of_le h0 with h | h
  · exact h
  · rw [← h] at h1; simp at h1; linarith

theorem SqrtSpec.one {sqrt : F → F} (hs : SqrtSpec sqrt) : sqrt 1 = 1 := by
  obtain ⟨h0, h1⟩ := hs 1 zero_le_one
  have h : (sqrt 1 - 1) * (sqrt 1 + 1) = 0 := by ring_nf; nlinarith
  rcases mul_eq_zero.mp h with h | h
  · linarith
  · linarith

theorem real_sqrtSpec : SqrtSpec Real.sqrt :=
  fun x hx => ⟨Real.sqrt_nonneg x, Real.mul_self_sqrt hx⟩

/-- The body of `sphere3::trace` in the vocabulary of the statements. -/
theorem trace_eq (sqrt : F → F) (s : sphere3 F M) (r : ray3 F) (t_min t_max : F)
    (record : trace_record F M) :
    s.trace sqrt r t_min t_max record =
      if 0 < quad_disc s r then
        if in_window t_min t_max (root_minus sqrt s r) then
          (true, hit_record s r record (root_minus sqrt s r))
        else if in_window t_min t_max (root_plus sqrt s r) then
          (true, hit_record s r record (root_plus sqrt s r))
        else (false, record)
      else (false, record) := by
  simp only [sphere3.trace, quad_disc, quad_a, quad_b, quad_c, root_minus, root_plus, in_window,
    hit_record, gt_iff_lt, and_comm]

theorem root_minus_lt_plus {sqrt : F → F} (hs : SqrtSpec sqrt) (s : sphere3 F M) (r : ray3 F)
    (ha : 0 < quad_a r) (hd : 0 < quad_disc s r) : root_minus sqrt s r < root_plus sqrt s r := by
  have hp := hs.pos hd
  unfold root_minus root_plus
  exact div_lt_div_of_pos_right (by linarith) ha

theorem root_minus_solves {sqrt : F → F} (hs : SqrtSpec sqrt) (s : sphere3 F M) (r : ray3 F)
    (ha : 0 < quad_a r) (hd : 0 < quad_disc s r) :
    quad_a r * root_minus sqrt s r * root_minus sqrt s r + 2 * quad_b s r * root_minus sqrt s r
      + quad_c s r = 0 := by
  have h := (hs _ hd.le).2
  have hne : quad_a r ≠ 0 := ne_of_gt ha
  unfold root_minus
  unfold quad_disc at h ⊢
  field_simp
  ring_nf
  ring_nf at h
  nlinarith [h]

theorem root_plus_solves {sqrt : F → F} (hs : SqrtSpec sqrt) (s : sphere3 F M) (r : ray3 F)
    (ha : 0 < quad_a r) (hd : 0 < quad_disc s r) :
    quad_a r * root_plus sqrt s r * root_plus sqrt s r + 2 * quad_b s r * root_plus sqrt s r
      + quad_c s r = 0 := by
  have h := (hs _ hd.le).2
  have hne : quad_a r ≠ 0 := ne_of_gt ha
  unfold root_plus
  unfold quad_disc at h ⊢
  field_simp
  ring_nf
  ring_nf at h
  nlinarith [h]

theorem on_sphere_of_root (s : sphere3 F M) (r : ray3 F) (t : F)
    (h : quad_a r * t * t + 2 * quad_b s r * t + quad_c s r = 0) :
    dot (r.point_at_parameter t - s.getCenter r.time) (r.point_at_parameter t - s.getCenter r.time)
      = s.radius * s.radius := by
  have e : dot (r.point_at_parameter t - s.getCenter r.time)
      (r.point_at_parameter t - s.getCenter r.time) - s.radius * s.radius
      = quad_a r * t * t + 2 * quad_b s r * t + quad_c s r := by
    simp only [dot, quad_a, quad_b, quad_c, ray3.point_at_parameter, vec3.add_x, vec3.add_y,
      vec3.add_z, vec3.sub_x, vec3.sub_y, vec3.sub_z, vec3.smul_x, vec3.smul_y, vec3.smul_z]
    ring
  linarith

theorem length_div_radius (sqrt : F → F) (hs : SqrtSpec sqrt) (v : vec3 F) (rad : F)
    (hr : rad ≠ 0) (h : dot v v = rad * rad) : vec3.length sqrt (v / rad) = 1 := by
  have e : (v / rad).x * (v / rad).x + (v / rad).y * (v / rad).y + (v / rad).z * (v / rad).z
      = 1 := by
    simp only [vec3.div_x, vec3.div_y, vec3.div_z]
    unfold dot at h
    field_simp
    linarith
  unfold vec3.length
  rw [e]
  exact hs.one

theorem getCenter_at_rest (C V : vec3 F) (rad : F) (m : M) (T T1 : F) :
    sphere3.getCenter (sphere3.mk (C + V * T) rad m vzero) T1
      = sphere3.getCenter (sphere3.mk C rad m V) T := by
  apply vec3.ext_comp <;> simp [sphere3.getCenter, vzero]

theorem quad_a_through : quad_a (ray_through : ray3 F) = 1 := by
  simp [quad_a, dot, ray_through]

theorem quad_b_through : quad_b unit_sphere (ray_through : ray3 F) = -5 := by
  simp [quad_b, dot, ray_through, unit_sphere, sphere3.getCenter, vzero]

theorem quad_c_through : quad_c unit_sphere (ray_through : ray3 F) = 24 := by
  simp [quad_c, dot, ray_through, unit_sphere, sphere3.getCenter, vzero]
  norm_num

theorem quad_disc_through : quad_disc unit_sphere (ray_through : ray3 F) = 1 := by
  rw [quad_disc, quad_a_through, quad_b_through, quad_c_through]
  norm_num

theorem root_minus_through {sqrt : F → F} (hs : SqrtSpec sqrt) :
    root_minus sqrt unit_sphere (ray_through : ray3 F) = 4 := by
  rw [root_minus, quad_a_through, quad_b_through, quad_disc_through, hs.one]
  norm_num

theorem root_plus_through {sqrt : F → F} (hs : SqrtSpec sqrt) :
    root_plus sqrt unit_sphere (ray_through : ray3 F) = 6 := by
  rw [root_plus, quad_a_through, quad_b_through, quad_disc_through, hs.one]
  norm_num

theorem ray_through_direction_ne : (ray_through : ray3 F).direction ≠ vzero := by
  intro h
  have hz := congrArg vec3.z h
  simp [ray_through, vzero] at hz

theorem ray_grazing_direction_ne : (ray_grazing : ray3 F).direction ≠ vzero := by
  intro h
  have hx := congrArg vec3.x h
  simp [ray_grazing, vzero] at hx

theorem ray_inside_direction_ne : (ray_inside : ray3 F).direction ≠ vzero := by
  intro h
  have hx := congrArg vec3.x h
  simp [ray_inside, vzero] at hx

theorem trace_through_hit {sqrt : F → F} (hs : SqrtSpec sqrt) (record : trace_record F Unit) :
    unit_sphere.trace sqrt ray_through 0 1000 record
      = (true, hit_record unit_sphere ray_through record 4) := by
  rw [trace_eq, quad_disc_through, root_minus_through hs]
  norm_num

theorem SqrtSpec.mul_self {sqrt : F → F} (hs : SqrtSpec sqrt) {y : F} (hy : 0 ≤ y) :
    sqrt (y * y) = y := by
  obtain ⟨h0, h1⟩ := hs (y * y) (mul_self_nonneg y)
  have h : (sqrt (y * y) - y) * (sqrt (y * y) + y) = 0 := by
    have e : (sqrt (y * y) - y) * (sqrt (y * y) + y)
        = sqrt (y * y) * sqrt (y * y) - y * y := by ring
    rw [e, h1, sub_self]
  rcases mul_eq_zero.mp h with h | h
  · linarith
  · have e : y = 0 := by linarith
    have e2 : sqrt (y * y) = 0 := by linarith
    rw [e2, e]

theorem length_grazing {sqrt : F → F} (hs : SqrtSpec sqrt) :
    vec3.length sqrt (vec3.mk (24 : F) (-7) 0) = 25 := by
  unfold vec3.length
  rw [show ((24 : F) * 24 + -7 * -7 + 0 * 0) = 25 * 25 by norm_num]
  exact hs.mul_self (by norm_num)

theorem length_inside {sqrt : F → F} (hs : SqrtSpec sqrt) :
    vec3.length sqrt (vec3.mk (4 : F) 3 0) = 5 := by
  unfold vec3.length
  rw [show ((4 : F) * 4 + 3 * 3 + 0 * 0) = 5 * 5 by norm_num]
  exact hs.mul_self (by norm_num)

/-- The body of `dielectric::refract` in the vocabulary of the statements. -/
theorem dielectric_refract_eq (sqrt : F → F) (v n : vec3 F) (k : F) (junk : vec3 F) :
    dielectric.refract sqrt v n k junk =
      if 0 < 1 - k ^ 2 * (1 - dot (unit_vector sqrt v) n ^ 2) then
        (true, snell_refracted sqrt k (unit_vector sqrt v) n)
      else (false, junk) := by
  simp only [dielectric.refract, snell_refracted, pow_two, gt_iff_lt]

/-- The body of `transmissive::refract` in the vocabulary of the statements. -/
theorem transmissive_refract_eq (sqrt : F → F) (v n : vec3 F) (k : F) (junk : vec3 F) :
    transmissive.refract sqrt v n k junk =
      if 0 < 1 - k ^ 2 * (1 - dot (unit_vector sqrt v) n ^ 2) then
        (true, snell_refracted sqrt k (unit_vector sqrt v) n)
      else (false, junk) := by
  simp only [transmissive.refract, snell_refracted, pow_two, gt_iff_lt]

/-- The body of `dielectric::scatter` in the vocabulary of the statements. -/
theorem dielectric_scatter_eq (sqrt : F → F) (albedo : vec3 F) (ior : F) (r_in : ray3 F)
    (record : trace_record F M) (u : F) (junk : vec3 F) (out : scatter_out F) :
    dielectric.scatter sqrt albedo ior r_in record u junk out =
      (true,
        { attenuation := albedo
          scattered := ray3.mk record.position
            (if u < (if 0 < snell_disc sqrt ior r_in.direction record.normal then
                dielectric.schlick (schlick_cosine sqrt ior r_in.direction record.normal) ior
              else 1) then
              dielectric.reflect r_in.direction record.normal
            else if 0 < snell_disc sqrt ior r_in.direction record.normal then
              snell_refracted sqrt (relative_index ior r_in.direction record.normal)
                (unit_vector sqrt r_in.direction)
                (effective_normal r_in.direction record.normal)
            else junk)
            r_in.time
          pdf := 1 }) := by
  unfold dielectric.scatter dielectric.scatter2
  simp only [dielectric_refract_eq, snell_disc, schlick_cosine, relative_index, effective_normal,
    gt_iff_lt]
  by_cases hdn : 0 < dot r_in.direction record.normal
  · simp only [if_pos hdn]
    by_cases hd : 0 < 1 - ior ^ 2 * (1 - dot (unit_vector sqrt r_in.direction) (-record.normal) ^ 2)
    · simp only [if_pos hd, if_true]
      split_ifs <;> rfl
    · simp only [if_neg hd, Bool.false_eq_true, if_false]
      split_ifs <;> rfl
  · simp only [if_neg hdn]
    by_cases hd : 0 < 1 - (1 / ior) ^ 2 * (1 - dot (unit_vector sqrt r_in.direction) record.normal ^ 2)
    · simp only [if_pos hd, if_true]
      split_ifs <;> rfl
    · simp only [if_neg hd, Bool.false_eq_true, if_false]
      split_ifs <;> rfl

/-- The body of `transmissive::scatter` in the vocabulary of the statements. -/
theorem transmissive_scatter_eq (sqrt : F → F) (albedo : texture F) (ior : F) (r_in : ray3 F)
    (record : trace_record F M) (u : F) (junk : vec3 F) (out : scatter_out F) :
    transmissive.scatter sqrt albedo ior r_in record u junk out =
      (true,
        { attenuation := albedo record.texcoord record.position
          scattered := ray3.mk record.position
            (if u < (if 0 < snell_disc sqrt ior r_in.direction record.normal then
                transmissive.schlick (schlick_cosine sqrt ior r_in.direction record.normal) ior
              else 1) then
              transmissive.reflect r_in.direction record.normal
            else if 0 < snell_disc sqrt ior r_in.direction record.normal then
              snell_refracted sqrt (relative_index ior r_in.direction record.normal)
                (unit_vector sqrt r_in.direction)
                (effective_normal r_in.direction record.normal)
            else junk)
            r_in.time
          pdf := 1 }) := by
  unfold transmissive.scatter transmissive.scatter2
  simp only [transmissive_refract_eq, snell_disc, schlick_cosine, relative_index,
    effective_normal, gt_iff_lt]
  by_cases hdn : 0 < dot r_in.direction record.normal
  · simp only [if_pos hdn]
    by_cases hd : 0 < 1 - ior ^ 2 * (1 - dot (unit_vector sqrt r_in.direction) (-record.normal) ^ 2)
    · simp only [if_pos hd, if_true]
      split_ifs <;> rfl
    · simp only [if_neg hd, Bool.false_eq_true, if_false]
      split_ifs <;> rfl
  · simp only [if_neg hdn]
    by_cases hd : 0 < 1 - (1 / ior) ^ 2 * (1 - dot (unit_vector sqrt r_in.direction) record.normal ^ 2)
    · simp only [if_pos hd, if_true]
      split_ifs <;> rfl
    · simp only [if_neg hd, Bool.false_eq_true, if_false]
      split_ifs <;> rfl

theorem dot_comm (u v : vec3 F) : dot u v = dot v u := by
  unfold dot; ring

theorem cauchy_schwarz (u v : vec3 F) : dot u v * dot u v ≤ dot u u * dot v v := by
  have e : dot u u * dot v v - dot u v * dot u v
      = (u.x * v.y - u.y * v.x) * (u.x * v.y - u.y * v.x)
        + (u.x * v.z - u.z * v.x) * (u.x * v.z - u.z * v.x)
        + (u.y * v.z - u.z * v.y) * (u.y * v.z - u.z * v.y) := by
    unfold dot; ring
  have h1 := mul_self_nonneg (u.x * v.y - u.y * v.x)
  have h2 := mul_self_nonneg (u.x * v.z - u.z * v.x)
  have h3 := mul_self_nonneg (u.y * v.z - u.z * v.y)
  linarith

theorem length_eq_sqrt_dot (sqrt : F → F) (v : vec3 F) : v.length sqrt = sqrt (dot v v) := rfl

theorem length_nonneg {sqrt : F → F} (hs : SqrtSpec sqrt) (v : vec3 F) : 0 ≤ v.length sqrt :=
  (hs _ (dot_self_nonneg v)).1

theorem length_mul_self {sqrt : F → F} (hs : SqrtSpec sqrt) (v : vec3 F) :
    v.length sqrt * v.length sqrt = dot v v :=
  (hs _ (dot_self_nonneg v)).2

theorem length_pos {sqrt : F → F} (hs : SqrtSpec sqrt) {v : vec3 F} (hv : v ≠ vzero) :
    0 < v.length sqrt :=
  hs.pos (dot_self_pos hv)

theorem dot_self_of_length_one {sqrt : F → F} (hs : SqrtSpec sqrt) {n : vec3 F}
    (hn : n.length sqrt = 1) : dot n n = 1 := by
  have h := length_mul_self hs n
  rw [hn] at h
  linarith

theorem dot_self_lt_one_of_length {sqrt : F → F} (hs : SqrtSpec sqrt) {r : vec3 F}
    (hr : r.length sqrt < 1) : dot r r < 1 := by
  have h := length_mul_self hs r
  have h0 := length_nonneg hs r
  nlinarith

theorem length_of_dot_self_one {sqrt : F → F} (hs : SqrtSpec sqrt) {v : vec3 F}
    (h : dot v v = 1) : v.length sqrt = 1 := by
  rw [length_eq_sqrt_dot, h]
  exact hs.one

theorem dot_unit_vector (sqrt : F → F) (v n : vec3 F) :
    dot (unit_vector sqrt v) n = dot v n / v.length sqrt := by
  simp only [dot, unit_vector, vec3.div_x, vec3.div_y, vec3.div_z]
  ring

theorem dot_unit_vector_right (sqrt : F → F) (n v : vec3 F) :
    dot n (unit_vector sqrt v) = dot n v / v.length sqrt := by
  rw [dot_comm, dot_unit_vector, dot_comm]

theorem unit_vector_dot_self {sqrt : F → F} (hs : SqrtSpec sqrt) {v : vec3 F}
    (hv : v ≠ vzero) : dot (unit_vector sqrt v) (unit_vector sqrt v) = 1 := by
  have hl := length_pos hs hv
  have hm := length_mul_self hs v
  rw [dot_unit_vector, dot_unit_vector_right, div_div, hm]
  exact div_self (ne_of_gt (dot_self_pos hv))

/-- For a unit normal `n` and a sample `r` with `dot(r, r) < 1`, the sum `n + r` has
positive component along `n`. -/
theorem dot_normal_add_pos {n r : vec3 F} (hn : dot n n = 1) (hr : dot r r < 1) :
    0 < dot n (n + r) := by
  have e : dot n (n + r) = dot n n + dot n r := by
    simp only [dot, vec3.add_x, vec3.add_y, vec3.add_z]; ring
  have cs := cauchy_schwarz n r
  rw [hn, one_mul] at cs
  rw [e, hn]
  by_contra hcon
  have h1 : dot n r ≤ -1 := by linarith
  nlinarith

theorem normal_add_ne_zero {n r : vec3 F} (hn : dot n n = 1) (hr : dot r r < 1) :
    n + r ≠ vzero := by
  intro h
  have hp := dot_normal_add_pos hn hr
  rw [h] at hp
  simp [dot, vzero] at hp

theorem lambertian_direction (sqrt : F → F) (ONE_PI : F) (albedo : texture F) (r_in : ray3 F)
    (record : trace_record F M) (rnd : vec3 F) (out : scatter_out F) :
    (lambertian.scatter sqrt ONE_PI albedo r_in record rnd out).2.scattered.direction
      = record.normal + rnd := by
  apply vec3.ext_comp <;> (simp only [lambertian.scatter, vec3.add_x, vec3.add_y, vec3.add_z,
    vec3.sub_x, vec3.sub_y, vec3.sub_z]; ring)

theorem lambertian_pdf (sqrt : F → F) (ONE_PI : F) (albedo : texture F) (r_in : ray3 F)
    (record : trace_record F M) (rnd : vec3 F) (out : scatter_out F) :
    (lambertian.scatter sqrt ONE_PI albedo r_in record rnd out).2.pdf
      = dot record.normal (unit_vector sqrt (record.normal + rnd)) / ONE_PI := by
  have h := lambertian_direction sqrt ONE_PI albedo r_in record rnd out
  simp only [lambertian.scatter] at h ⊢
  rw [h]

theorem lambertian_cosine_pos {sqrt : F → F} (hs : SqrtSpec sqrt) {n r : vec3 F}
    (hn : n.length sqrt = 1) (hr : r.length sqrt < 1) :
    0 < dot n (unit_vector sqrt (n + r)) := by
  have hn1 := dot_self_of_length_one hs hn
  have hr1 := dot_self_lt_one_of_length hs hr
  rw [dot_unit_vector_right]
  exact div_pos (dot_normal_add_pos hn1 hr1) (length_pos hs (normal_add_ne_zero hn1 hr1))

/-! ## Sphere intersection -/

/-- C1 (nearest-hit selection): for a ray with `a = dot(d,d) > 0` and positive
discriminant whose two roots both lie strictly inside `(t_min, t_max)`,
`sphere3::trace` reports a hit and records the smaller of the two roots, which is
`(-b - sqrt(disc)) / a`. -/
theorem trace_nearest_hit (sqrt : F → F) (hs : SqrtSpec sqrt) (s : sphere3 F M) (r : ray3 F)
    (t_min t_max : F) (record : trace_record F M)
    (ha : 0 < quad_a r) (hd : 0 < quad_disc s r)
    (h1 : in_window t_min t_max (root_minus sqrt s r))
    (h2 : in_window t_min t_max (root_plus sqrt s r)) :
    (s.trace sqrt r t_min t_max record).1 = true ∧
    (s.trace sqrt r t_min t_max record).2.t
      = min (root_minus sqrt s r) (root_plus sqrt s r) ∧
    min (root_minus sqrt s r) (root_plus sqrt s r) = root_minus sqrt s r := by
  have hm : min (root_minus sqrt s r) (root_plus sqrt s r) = root_minus sqrt s r :=
    min_eq_left (root_minus_lt_plus hs s r ha hd).le
  have _h2 := h2
  rw [trace_eq, if_pos hd, if_pos h1, hm]
  exact ⟨rfl, rfl, rfl⟩

/-- Witness of C1: the unit sphere at the origin and the ray from `(0,0,-5)` along
`(0,0,1)` over the reals, window `(0, 1000)`; the roots are 4 and 6. -/
theorem trace_nearest_hit_witness :
    (unit_sphere.trace Real.sqrt (ray_through : ray3 ℝ) 0 1000 blank_record).1 = true ∧
    (unit_sphere.trace Real.sqrt (ray_through : ray3 ℝ) 0 1000 blank_record).2.t
      = min (root_minus Real.sqrt unit_sphere ray_through)
          (root_plus Real.sqrt unit_sphere ray_through) ∧
    min (root_minus Real.sqrt unit_sphere (ray_through : ray3 ℝ))
        (root_plus Real.sqrt unit_sphere ray_through)
      = root_minus Real.sqrt unit_sphere ray_through :=
  trace_nearest_hit Real.sqrt real_sqrtSpec unit_sphere ray_through 0 1000 blank_record
    (by rw [quad_a_through]; norm_num) (by rw [quad_disc_through]; norm_num)
    (by rw [root_minus_through real_sqrtSpec]; constructor <;> norm_num)
    (by rw [root_plus_through real_sqrtSpec]; constructor <;> norm_num)

/-- C2 (no hit): `sphere3::trace` returns `false` exactly when the discriminant
`b*b - a*c` is `<= 0` or neither root lies strictly inside `(t_min, t_max)`; and
the ray from `(0,0,-5)` with direction `(0,1,0)` misses the unit sphere at the
origin, whatever the window and the square root. -/
theorem trace_no_hit_iff :
    (∀ (sqrt : F → F) (s : sphere3 F M) (r : ray3 F) (t_min t_max : F)
        (record : trace_record F M),
      (s.trace sqrt r t_min t_max record).1 = false ↔
        (quad_disc s r ≤ 0 ∨
          (¬ in_window t_min t_max (root_minus sqrt s r) ∧
           ¬ in_window t_min t_max (root_plus sqrt s r)))) ∧
    (∀ (sqrt : F → F) (t_min t_max : F) (record : trace_record F Unit),
      (unit_sphere.trace sqrt (ray_parallel : ray3 F) t_min t_max record).1 = false) := by
  have key : ∀ (N : Type) (sqrt : F → F) (s : sphere3 F N) (r : ray3 F) (t_min t_max : F)
      (record : trace_record F N),
      (s.trace sqrt r t_min t_max record).1 = false ↔
        (quad_disc s r ≤ 0 ∨
          (¬ in_window t_min t_max (root_minus sqrt s r) ∧
           ¬ in_window t_min t_max (root_plus sqrt s r))) := by
    intro N sqrt s r t_min t_max record
    rw [trace_eq]
    by_cases hd : 0 < quad_disc s r
    · rw [if_pos hd]
      by_cases h1 : in_window t_min t_max (root_minus sqrt s r)
      · rw [if_pos h1]
        constructor
        · intro h; cases h
        · rintro (h | ⟨h, _⟩)
          · exact absurd hd (not_lt.mpr h)
          · exact absurd h1 h
      · rw [if_neg h1]
        by_cases h2 : in_window t_min t_max (root_plus sqrt s r)
        · rw [if_pos h2]
          constructor
          · intro h; cases h
          · rintro (h | ⟨_, h⟩)
            · exact absurd hd (not_lt.mpr h)
            · exact absurd h2 h
        · rw [if_neg h2]
          exact ⟨fun _ => Or.inr ⟨h1, h2⟩, fun _ => rfl⟩
    · rw [if_neg hd]
      exact ⟨fun _ => Or.inl (not_lt.mp hd), fun _ => rfl⟩
  refine ⟨key M, ?_⟩
  intro sqrt t_min t_max record
  rw [key Unit]
  left
  simp [quad_disc, quad_a, quad_b, quad_c, dot, ray_parallel, unit_sphere, sphere3.getCenter,
    vzero]
  norm_num

/-- C3 (normal unit-length): for a sphere with `radius > 0` and a ray with non-zero
direction, whenever `sphere3::trace` reports a hit the recorded normal is
`(position - center(ray.time)) / radius`, the recorded position lies on the sphere
of that radius around the time-adjusted center, and the normal has length exactly 1. -/
theorem trace_normal_unit (sqrt : F → F) (hs : SqrtSpec sqrt) (s : sphere3 F M) (r : ray3 F)
    (t_min t_max : F) (record : trace_record F M)
    (hr : 0 < s.radius) (hdir : r.direction ≠ vzero)
    (hit : (s.trace sqrt r t_min t_max record).1 = true) :
    (s.trace sqrt r t_min t_max record).2.normal
      = ((s.trace sqrt r t_min t_max record).2.position - s.getCenter r.time) / s.radius ∧
    dot ((s.trace sqrt r t_min t_max record).2.position - s.getCenter r.time)
        ((s.trace sqrt r t_min t_max record).2.position - s.getCenter r.time)
      = s.radius * s.radius ∧
    vec3.length sqrt (s.trace sqrt r t_min t_max record).2.normal = 1 := by
  have ha : 0 < quad_a r := dot_self_pos hdir
  have hne : s.radius ≠ 0 := ne_of_gt hr
  rw [trace_eq] at hit ⊢
  by_cases hd : 0 < quad_disc s r
  · rw [if_pos hd] at hit ⊢
    by_cases h1 : in_window t_min t_max (root_minus sqrt s r)
    · rw [if_pos h1]
      have e := on_sphere_of_root s r _ (root_minus_solves hs s r ha hd)
      exact ⟨rfl, e, length_div_radius sqrt hs _ _ hne e⟩
    · rw [if_neg h1] at hit ⊢
      by_cases h2 : in_window t_min t_max (root_plus sqrt s r)
      · rw [if_pos h2]
        have e := on_sphere_of_root s r _ (root_plus_solves hs s r ha hd)
        exact ⟨rfl, e, length_div_radius sqrt hs _ _ hne e⟩
      · rw [if_neg h2] at hit
        cases hit
  · rw [if_neg hd] at hit
    cases hit

/-- Witness of C3: the unit sphere at the origin and the ray from `(0,0,-5)` along
`(0,0,1)` over the reals, window `(0, 1000)`. -/
theorem trace_normal_unit_witness :
    vec3.length Real.sqrt
      (unit_sphere.trace Real.sqrt (ray_through : ray3 ℝ) 0 1000 blank_record).2.normal = 1 :=
  (trace_normal_unit Real.sqrt real_sqrtSpec unit_sphere ray_through 0 1000 blank_record
    (by simp [unit_sphere]) ray_through_direction_ne
    (by rw [trace_through_hit real_sqrtSpec])).2.2

/-- C4 (motion consistency): `sphere3::trace` on the moving sphere `(C, r, V)` with
a ray at time `T` returns the same result and the same record as on the sphere at
rest at `C + V*T` with the same origin and direction at any ray time `T1`. -/
theorem trace_motion_consistent (sqrt : F → F) (C V : vec3 F) (rad : F) (m : M)
    (o d : vec3 F) (T T1 : F) (t_min t_max : F) (record : trace_record F M) :
    (sphere3.mk C rad m V).trace sqrt (ray3.mk o d T) t_min t_max record
      = (sphere3.mk (C + V * T) rad m vzero).trace sqrt (ray3.mk o d T1) t_min t_max record := by
  have hc := getCenter_at_rest C V rad m T T1
  simp only [sphere3.trace, ray3.point_at_parameter, hc]

/-- C5 (root-in-window soundness): for a ray with non-zero direction, whenever
`sphere3::trace` reports a hit the recorded `t` lies strictly inside
`(t_min, t_max)`, solves `a*t*t + 2*b*t + c = 0`, and is the first of (smaller
root, larger root) that lies in the window; the larger root is recorded exactly
when the smaller one is outside the window and the larger one inside. -/
theorem trace_root_in_window (sqrt : F → F) (hs : SqrtSpec sqrt) (s : sphere3 F M) (r : ray3 F)
    (t_min t_max : F) (record : trace_record F M)
    (hdir : r.direction ≠ vzero)
    (hit : (s.trace sqrt r t_min t_max record).1 = true) :
    (t_min < (s.trace sqrt r t_min t_max record).2.t ∧
      (s.trace sqrt r t_min t_max record).2.t < t_max) ∧
    quad_a r * (s.trace sqrt r t_min t_max record).2.t * (s.trace sqrt r t_min t_max record).2.t
      + 2 * quad_b s r * (s.trace sqrt r t_min t_max record).2.t + quad_c s r = 0 ∧
    root_minus sqrt s r < root_plus sqrt s r ∧
    (s.trace sqrt r t_min t_max record).2.t
      = (if in_window t_min t_max (root_minus sqrt s r) then root_minus sqrt s r
         else root_plus sqrt s r) ∧
    ((s.trace sqrt r t_min t_max record).2.t = root_plus sqrt s r ↔
      (¬ in_window t_min t_max (root_minus sqrt s r) ∧
        in_window t_min t_max (root_plus sqrt s r))) := by
  have ha : 0 < quad_a r := dot_self_pos hdir
  rw [trace_eq] at hit ⊢
  by_cases hd : 0 < quad_disc s r
  · have hlt := root_minus_lt_plus hs s r ha hd
    rw [if_pos hd] at hit ⊢
    by_cases h1 : in_window t_min t_max (root_minus sqrt s r)
    · rw [if_pos h1, if_pos h1]
      refine ⟨h1, root_minus_solves hs s r ha hd, hlt, rfl, ?_⟩
      constructor
      · intro h
        exact absurd h (ne_of_lt hlt)
      · intro h
        exact absurd h1 h.1
    · rw [if_neg h1] at hit ⊢
      by_cases h2 : in_window t_min t_max (root_plus sqrt s r)
      · rw [if_pos h2, if_neg h1]
        exact ⟨h2, root_plus_solves hs s r ha hd, hlt, rfl, fun _ => ⟨h1, h2⟩, fun _ => rfl⟩
      · rw [if_neg h2] at hit
        cases hit
  · rw [if_neg hd] at hit
    cases hit

/-- Witness of C5: the unit sphere at the origin and the ray from `(0,0,-5)` along
`(0,0,1)` over the reals, window `(0, 1000)`: the recorded `t` is inside the window. -/
theorem trace_root_in_window_witness :
    (0 : ℝ) < (unit_sphere.trace Real.sqrt (ray_through : ray3 ℝ) 0 1000 blank_record).2.t ∧
    (unit_sphere.trace Real.sqrt (ray_through : ray3 ℝ) 0 1000 blank_record).2.t < 1000 :=
  (trace_root_in_window Real.sqrt real_sqrtSpec unit_sphere ray_through 0 1000 blank_record
    ray_through_direction_ne (by rw [trace_through_hit real_sqrtSpec])).1

/-! ## Material scattering -/

/-- The body of `metal::scatter` on the grazing ray, with the unit incoming
direction evaluated. -/
theorem metal_grazing_direction {sqrt : F → F} (hs : SqrtSpec sqrt) (albedo : vec3 F)
    (fuzz : F) (rnd : vec3 F) (out : scatter_out F) :
    (metal.scatter sqrt albedo fuzz ray_grazing floor_record rnd out).2.scattered.direction
      = vec3.mk (24 / 25 + fuzz * rnd.x) (7 / 25 + fuzz * rnd.y) (fuzz * rnd.z) := by
  have hl := length_grazing hs
  apply vec3.ext_comp <;>
    (simp [metal.scatter, metal.reflect, unit_vector, ray_grazing, floor_record, dot, hl]; try ring)

/-- C6 (time and origin propagation): for every material variant, whenever
`scatter` returns `true` the scattered ray has origin `record.position` and time
`in.time()`. -/
theorem scatter_propagates_origin_time (sqrt : F → F) (ONE_PI : F) (m : material F)
    (r_in : ray3 F) (record : trace_record F M) (rnd : vec3 F) (u : F) (junk : vec3 F)
    (out : scatter_out F)
    (h : (m.scatter sqrt ONE_PI r_in record rnd u junk out).1 = true) :
    (m.scatter sqrt ONE_PI r_in record rnd u junk out).2.scattered.origin = record.position ∧
    (m.scatter sqrt ONE_PI r_in record rnd u junk out).2.scattered.time = r_in.time := by
  cases m with
  | isotropic albedo => exact ⟨rfl, rfl⟩
  | lambertian albedo => exact ⟨rfl, rfl⟩
  | transmissive albedo ior =>
    simp only [material.scatter, transmissive_scatter_eq, and_self]
  | metal albedo fuzz => exact ⟨rfl, rfl⟩
  | dielectric albedo ior =>
    simp only [material.scatter, dielectric_scatter_eq, and_self]
  | diffuse_light color => cases h
  | diffuse_texlight color => cases h

/-- Witness of C6: a mirror (`fuzz = 0`) hit by the grazing ray over the reals
accepts the scatter; the scattered ray starts at the hit position at time 0. -/
theorem scatter_propagates_origin_time_witness :
    ((material.metal (vec3.mk (1 : ℝ) 1 1) 0).scatter Real.sqrt 1 ray_grazing floor_record
        vzero 0 vzero blank_out).2.scattered.origin = floor_record.position ∧
    ((material.metal (vec3.mk (1 : ℝ) 1 1) 0).scatter Real.sqrt 1 ray_grazing floor_record
        vzero 0 vzero blank_out).2.scattered.time = (ray_grazing : ray3 ℝ).time :=
  scatter_propagates_origin_time Real.sqrt 1 (material.metal (vec3.mk (1 : ℝ) 1 1) 0)
    ray_grazing floor_record vzero 0 vzero blank_out
    (by
      have hd := metal_grazing_direction real_sqrtSpec (vec3.mk (1 : ℝ) 1 1) 0 vzero blank_out
      simp only [material.scatter, metal.scatter] at hd ⊢
      rw [hd]
      simp [dot, floor_record])

/-- C7 (metal scatter rule): for an incoming ray with non-zero direction,
`metal::scatter` sets the scattered direction to
`reflect(unit(in.direction), normal) + fuzz*r` with `reflect(v,n) = v - 2*dot(v,n)*n`,
the attenuation to the constant albedo and `pdf` to 1, and returns `false` exactly
when `dot(scattered.direction, normal) <= 0`; over the reals, the grazing ray along
`(24,-7,0)` on the surface with normal `(0,1,0)`, with `fuzz = 1` and sample
`(0,-1/2,0)`, is rejected. -/
theorem metal_scatter_rule (sqrt : F → F) (albedo : vec3 F) (fuzz : F) (r_in : ray3 F)
    (record : trace_record F M) (rnd : vec3 F) (out : scatter_out F)
    (hdir : r_in.direction ≠ vzero) :
    ((metal.scatter sqrt albedo fuzz r_in record rnd out).2.scattered.direction
        = metal.reflect (unit_vector sqrt r_in.direction) record.normal + fuzz * rnd ∧
      (metal.scatter sqrt albedo fuzz r_in record rnd out).2.attenuation = albedo ∧
      (metal.scatter sqrt albedo fuzz r_in record rnd out).2.pdf = 1 ∧
      ((metal.scatter sqrt albedo fuzz r_in record rnd out).1 = false ↔
        dot (metal.scatter sqrt albedo fuzz r_in record rnd out).2.scattered.direction
          record.normal ≤ 0)) ∧
    (∀ v n : vec3 F, metal.reflect v n = v - 2 * dot v n * n) ∧
    (∀ (color : vec3 ℝ) (out1 : scatter_out ℝ),
      (metal.scatter Real.sqrt color 1 ray_grazing floor_record (vec3.mk 0 (-1 / 2) 0) out1).1
        = false) := by
  have _hd := hdir
  refine ⟨⟨rfl, rfl, rfl, ?_⟩, fun _ _ => rfl, ?_⟩
  · simp only [metal.scatter, decide_eq_false_iff_not, gt_iff_lt, not_lt]
  · intro color out1
    have hd := metal_grazing_direction real_sqrtSpec color 1 (vec3.mk 0 (-1 / 2) 0) out1
    simp only [metal.scatter] at hd ⊢
    rw [hd]
    simp [dot, floor_record]
    norm_num

/-- Witness of C7: over the reals, the grazing ray along `(24,-7,0)` on the surface
with normal `(0,1,0)`, `fuzz = 1/2` and sample `(0,-4/5,0)`: the scattered direction
is `(24/25, -3/25, 0)`, below the surface, and the scatter is rejected. -/
theorem metal_scatter_rule_witness :
    (metal.scatter Real.sqrt (vec3.mk 1 1 1) (1 / 2) ray_grazing floor_record
      (vec3.mk 0 (-4 / 5) 0) blank_out).1 = false :=
  (metal_scatter_rule Real.sqrt (vec3.mk 1 1 1) (1 / 2) ray_grazing floor_record
    (vec3.mk 0 (-4 / 5) 0) blank_out ray_grazing_direction_ne).1.2.2.2.mpr
    (by
      rw [metal_grazing_direction real_sqrtSpec]
      simp [dot, floor_record]
      norm_num)

/-- C8 (total internal reflection forces reflection): for an incoming ray with
non-zero direction, if the refraction
discriminant `1 - (ni/nt)^2 * (1 - cos^2)` is `<= 0`, then for every uniform sample
`u` in `[0,1)` `dielectric::scatter` returns `true` with `pdf = 1` and scattered
direction `in.direction - 2*dot(in.direction, normal)*normal`. -/
theorem dielectric_total_internal_reflection (sqrt : F → F) (albedo : vec3 F) (ior : F)
    (r_in : ray3 F) (record : trace_record F M) (u : F) (junk : vec3 F) (out : scatter_out F)
    (hdir : r_in.direction ≠ vzero)
    (htir : snell_disc sqrt ior r_in.direction record.normal ≤ 0)
    (hu0 : 0 ≤ u) (hu1 : u < 1) :
    (dielectric.scatter sqrt albedo ior r_in record u junk out).1 = true ∧
    (dielectric.scatter sqrt albedo ior r_in record u junk out).2.pdf = 1 ∧
    (dielectric.scatter sqrt albedo ior r_in record u junk out).2.scattered.direction
      = r_in.direction - 2 * dot r_in.direction record.normal * record.normal := by
  have _h0 := hu0
  have _hd := hdir
  rw [dielectric_scatter_eq]
  refine ⟨rfl, rfl, ?_⟩
  simp only [if_neg (not_lt.mpr htir), if_pos hu1, dielectric.reflect]

theorem snell_disc_inside {sqrt : F → F} (hs : SqrtSpec sqrt) :
    snell_disc sqrt 2 (ray_inside : ray3 F).direction (floor_record : trace_record F Unit).normal
      = -39 / 25 := by
  have hl := length_inside hs
  simp [snell_disc, relative_index, effective_normal, unit_vector, ray_inside, floor_record,
    dot, hl]
  norm_num

/-- Witness of C8: over the reals, the ray along `(4,3,0)` leaving glass (`ior = 2`)
through the surface with normal `(0,1,0)` has discriminant `-39/25`; with `u = 1/2`
the scattered direction is the mirror reflection. -/
theorem dielectric_total_internal_reflection_witness :
    (dielectric.scatter Real.sqrt vzero 2 ray_inside floor_record (1 / 2) vzero
        blank_out).2.scattered.direction
      = (ray_inside : ray3 ℝ).direction
          - 2 * dot (ray_inside : ray3 ℝ).direction (floor_record : trace_record ℝ Unit).normal
            * (floor_record : trace_record ℝ Unit).normal :=
  (dielectric_total_internal_reflection Real.sqrt vzero 2 ray_inside floor_record (1 / 2) vzero
    blank_out ray_inside_direction_ne (by rw [snell_disc_inside real_sqrtSpec]; norm_num)
    (by norm_num) (by norm_num)).2.2

/-- C9 (Fresnel branch selection): for an incoming ray with non-zero direction,
when refraction succeeds (positive refraction
discriminant) `dielectric::scatter` emits the mirror-reflected direction if
`u < schlick(cosine, ior)` and the refracted direction otherwise, where
`schlick(c, ior) = r0 + (1-r0)*(1-c)^5` with `r0 = ((1-ior)/(1+ior))^2`; for
`dot(in.direction, normal) > 0` the cosine is `ior*dot(in.direction, normal)/|in.direction|`,
the relative index `ior` and the normal flipped; otherwise the cosine is
`-dot(in.direction, normal)/|in.direction|`, the relative index `1/ior` and the normal
as-is. -/
theorem dielectric_fresnel_branch (sqrt : F → F) (albedo : vec3 F) (ior : F)
    (r_in : ray3 F) (record : trace_record F M) (u : F) (junk : vec3 F) (out : scatter_out F)
    (hdir : r_in.direction ≠ vzero)
    (hrefr : 0 < snell_disc sqrt ior r_in.direction record.normal) :
    (∀ c i : F, dielectric.schlick c i
      = ((1 - i) / (1 + i)) ^ 2 + (1 - ((1 - i) / (1 + i)) ^ 2) * (1 - c) ^ 5) ∧
    (0 < dot r_in.direction record.normal →
      (dielectric.scatter sqrt albedo ior r_in record u junk out).2.scattered.direction
        = if u < dielectric.schlick
              (ior * dot r_in.direction record.normal / r_in.direction.length sqrt) ior then
            r_in.direction - 2 * dot r_in.direction record.normal * record.normal
          else snell_refracted sqrt ior (unit_vector sqrt r_in.direction) (-record.normal)) ∧
    (¬ 0 < dot r_in.direction record.normal →
      (dielectric.scatter sqrt albedo ior r_in record u junk out).2.scattered.direction
        = if u < dielectric.schlick
              (-dot r_in.direction record.normal / r_in.direction.length sqrt) ior then
            r_in.direction - 2 * dot r_in.direction record.normal * record.normal
          else snell_refracted sqrt (1 / ior) (unit_vector sqrt r_in.direction) record.normal) ∧
    (dielectric.scatter sqrt albedo ior r_in record u junk out).1 = true := by
  have _hd := hdir
  rw [dielectric_scatter_eq]
  refine ⟨?_, ?_, ?_, rfl⟩
  · intro c i
    simp only [dielectric.schlick, pow_two]
  · intro hdn
    simp only [if_pos hrefr, schlick_cosine, relative_index, effective_normal, if_pos hdn,
      dielectric.reflect]
  · intro hdn
    simp only [if_pos hrefr, schlick_cosine, relative_index, effective_normal, if_neg hdn,
      dielectric.reflect]

theorem snell_disc_grazing {sqrt : F → F} (hs : SqrtSpec sqrt) :
    snell_disc sqrt 2 (ray_grazing : ray3 F).direction (floor_record : trace_record F Unit).normal
      = 481 / 625 := by
  have hl := length_grazing hs
  simp [snell_disc, relative_index, effective_normal, unit_vector, ray_grazing, floor_record,
    dot, hl]
  norm_num

/-- Witness of C9: over the reals, the grazing ray along `(24,-7,0)` entering glass
(`ior = 2`) through the surface with normal `(0,1,0)` has discriminant `481/625`,
so refraction succeeds and the scatter is accepted. -/
theorem dielectric_fresnel_branch_witness :
    (dielectric.scatter Real.sqrt vzero 2 (ray_grazing : ray3 ℝ) floor_record (1 / 2) vzero
        blank_out).1 = true :=
  (dielectric_fresnel_branch Real.sqrt vzero 2 ray_grazing floor_record (1 / 2) vzero
    blank_out ray_grazing_direction_ne
    (by rw [snell_disc_grazing real_sqrtSpec]; norm_num)).2.2.2

/-- Counterexample to C10 as stated: for `ior = -3` the cosines `0 <= 0 <= 1 <= 1`
give `schlick(0, -3) = 1 < 4 = schlick(1, -3)`. -/
theorem schlick_not_monotone_negative_ior :
    (0 : ℚ) ≤ 0 ∧ (0 : ℚ) ≤ 1 ∧ (1 : ℚ) ≤ 1 ∧
    dielectric.schlick (0 : ℚ) (-3) = 1 ∧ dielectric.schlick (1 : ℚ) (-3) = 4 ∧
    ¬ (dielectric.schlick (0 : ℚ) (-3) ≥ dielectric.schlick (1 : ℚ) (-3)) := by
  have e0 : dielectric.schlick (0 : ℚ) (-3) = 1 := by
    simp only [dielectric.schlick]; norm_num
  have e1 : dielectric.schlick (1 : ℚ) (-3) = 4 := by
    simp only [dielectric.schlick]; norm_num
  refine ⟨le_refl _, zero_le_one, le_refl _, e0, e1, ?_⟩
  rw [e0, e1]
  norm_num

theorem schlick_r0_le_one (ior : F) (h : 0 ≤ ior) :
    (1 - ior) / (1 + ior) * ((1 - ior) / (1 + ior)) ≤ 1 := by
  have hp : 0 < 1 + ior := by linarith
  have h1 : (1 - ior) / (1 + ior) ≤ 1 := by
    rw [div_le_one hp]; linarith
  have h2 : -1 ≤ (1 - ior) / (1 + ior) := by
    rw [le_div_iff₀ hp]; linarith
  nlinarith

/-- C10 amended (Schlick monotonicity): for every fixed `ior >= 0` and all cosines
`0 <= c1 <= c2 <= 1`, `schlick(c1, ior) >= schlick(c2, ior)`, for
`dielectric::schlick` and for `transmissive::schlick`. -/
theorem schlick_monotone (ior c1 c2 : F) (hior : 0 ≤ ior) (h0 : 0 ≤ c1) (h12 : c1 ≤ c2)
    (h1 : c2 ≤ 1) :
    dielectric.schlick c1 ior ≥ dielectric.schlick c2 ior ∧
    transmissive.schlick c1 ior ≥ transmissive.schlick c2 ior := by
  have _h0 := h0
  have hr := schlick_r0_le_one ior hior
  have hp : (1 - c2) ^ 5 ≤ (1 - c1) ^ 5 :=
    pow_le_pow_left₀ (by linarith) (by linarith) 5
  have key : (1 - ior) / (1 + ior) * ((1 - ior) / (1 + ior))
        + (1 - (1 - ior) / (1 + ior) * ((1 - ior) / (1 + ior))) * (1 - c2) ^ 5
      ≤ (1 - ior) / (1 + ior) * ((1 - ior) / (1 + ior))
        + (1 - (1 - ior) / (1 + ior) * ((1 - ior) / (1 + ior))) * (1 - c1) ^ 5 := by
    have := mul_le_mul_of_nonneg_left hp (sub_nonneg.mpr hr)
    linarith
  exact ⟨key, key⟩

/-- Witness of C10 amended: glass (`ior = 3/2`) at cosines `1/4 <= 3/4`. -/
theorem schlick_monotone_witness :
    dielectric.schlick (1 / 4 : ℚ) (3 / 2) ≥ dielectric.schlick (3 / 4 : ℚ) (3 / 2) ∧
    transmissive.schlick (1 / 4 : ℚ) (3 / 2) ≥ transmissive.schlick (3 / 4 : ℚ) (3 / 2) :=
  schlick_monotone (3 / 2 : ℚ) (1 / 4) (3 / 4) (by norm_num) (by norm_num) (by norm_num)
    (by norm_num)

/-! ## Densities, emitters and the remaining sphere properties -/

theorem length_up {sqrt : F → F} (hs : SqrtSpec sqrt) :
    vec3.length sqrt (vec3.mk (0 : F) 1 0) = 1 := by
  unfold vec3.length
  rw [show ((0 : F) * 0 + 1 * 1 + 0 * 0) = 1 by norm_num]
  exact hs.one

theorem scatter_pdf_spec_up {sqrt : F → F} (hs : SqrtSpec sqrt) (ONE_PI : F) :
    scatter_pdf_spec sqrt ONE_PI (floor_record : trace_record F Unit) ray_up = 1 / ONE_PI := by
  have hl := length_up hs
  simp [scatter_pdf_spec, unit_vector, floor_record, ray_up, dot, hl]

theorem scatter_pdf_eq_decide (sqrt : F → F) (ONE_PI : F) (r_in : ray3 F)
    (record : trace_record F M) (scattered : ray3 F) :
    material.scatter_pdf sqrt ONE_PI r_in record scattered
      = decide (scatter_pdf_spec sqrt ONE_PI record scattered ≠ 0) := by
  have e : (if dot record.normal (unit_vector sqrt scattered.direction) < 0 then 0
      else dot record.normal (unit_vector sqrt scattered.direction))
      = max 0 (dot record.normal (unit_vector sqrt scattered.direction)) := by
    by_cases h : dot record.normal (unit_vector sqrt scattered.direction) < 0
    · rw [if_pos h, max_eq_left h.le]
    · rw [if_neg h, max_eq_right (not_lt.mp h)]
  simp only [material.scatter_pdf, scatter_pdf_spec, e]

/-- C11 (default scatter density), the code at the failing input: `scatter_pdf`
computes `max(0, dot(normal, unit(scattered.direction))) / ONE_PI` but its return
type is `bool`, so what it returns is whether that density is non-zero.  For the
normal `(0,1,0)` and a scattered ray along `(0,1,0)` over the reals the density is
`1/pi`, strictly between 0 and 1, and the call returns `true`, which reads as 1. -/
theorem scatter_pdf_returns_bool :
    (∀ (sqrt : F → F) (ONE_PI : F) (r_in : ray3 F) (record : trace_record F M)
        (scattered : ray3 F),
      material.scatter_pdf sqrt ONE_PI r_in record scattered
        = decide (scatter_pdf_spec sqrt ONE_PI record scattered ≠ 0)) ∧
    material.scatter_pdf Real.sqrt Real.pi (ray_through : ray3 ℝ)
      (floor_record : trace_record ℝ Unit) ray_up = true ∧
    scatter_pdf_spec Real.sqrt Real.pi (floor_record : trace_record ℝ Unit) ray_up
      = 1 / Real.pi ∧
    (0 : ℝ) < 1 / Real.pi ∧ 1 / Real.pi < 1 ∧
    (bool_as_float (material.scatter_pdf Real.sqrt Real.pi (ray_through : ray3 ℝ)
        (floor_record : trace_record ℝ Unit) ray_up) : ℝ)
      ≠ scatter_pdf_spec Real.sqrt Real.pi (floor_record : trace_record ℝ Unit) ray_up := by
  have hspec := scatter_pdf_spec_up real_sqrtSpec Real.pi
  have hpos : (0 : ℝ) < 1 / Real.pi := one_div_pos.mpr Real.pi_pos
  have hlt : 1 / Real.pi < 1 := by
    rw [div_lt_one Real.pi_pos]
    linarith [Real.pi_gt_three]
  have hret : material.scatter_pdf Real.sqrt Real.pi (ray_through : ray3 ℝ)
      (floor_record : trace_record ℝ Unit) ray_up = true := by
    rw [scatter_pdf_eq_decide, hspec]
    exact decide_eq_true (ne_of_gt hpos)
  refine ⟨scatter_pdf_eq_decide, hret, hspec, hpos, hlt, ?_⟩
  rw [hret, hspec]
  simp only [bool_as_float, if_true]
  exact ne_of_gt hlt

/-- C12 (Lambertian sampling and density): for a record with unit-length normal and
a sphere sample `r` with `|r| < 1`, `lambertian::scatter` returns `true` with
scattered direction exactly `normal + r`, which is non-zero, attenuation equal to the
texture sample at the hit, and `pdf` equal to
`max(0, dot(normal, unit(normal + r))) / ONE_PI`. -/
theorem lambertian_scatter_rule (sqrt : F → F) (hs : SqrtSpec sqrt) (ONE_PI : F)
    (albedo : texture F) (r_in : ray3 F) (record : trace_record F M) (rnd : vec3 F)
    (out : scatter_out F)
    (hn : record.normal.length sqrt = 1) (hr : rnd.length sqrt < 1) :
    (lambertian.scatter sqrt ONE_PI albedo r_in record rnd out).1 = true ∧
    (lambertian.scatter sqrt ONE_PI albedo r_in record rnd out).2.scattered.direction
      = record.normal + rnd ∧
    record.normal + rnd ≠ vzero ∧
    (lambertian.scatter sqrt ONE_PI albedo r_in record rnd out).2.attenuation
      = albedo record.texcoord record.position ∧
    (lambertian.scatter sqrt ONE_PI albedo r_in record rnd out).2.pdf
      = max 0 (dot record.normal (unit_vector sqrt (record.normal + rnd))) / ONE_PI := by
  have hn1 := dot_self_of_length_one hs hn
  have hr1 := dot_self_lt_one_of_length hs hr
  refine ⟨rfl, lambertian_direction sqrt ONE_PI albedo r_in record rnd out,
    normal_add_ne_zero hn1 hr1, rfl, ?_⟩
  rw [lambertian_pdf, max_eq_right (lambertian_cosine_pos hs hn hr).le]

/-- Witness of C12: over the reals, the record with normal `(0,1,0)` and the sample
`(0,0,0)`: the scattered direction is the normal itself. -/
theorem lambertian_scatter_rule_witness :
    (lambertian.scatter Real.sqrt Real.pi (fun _ _ => vec3.mk (1 / 2) (1 / 2) (1 / 2))
        (ray_grazing : ray3 ℝ) (floor_record : trace_record ℝ Unit) vzero
        blank_out).2.scattered.direction
      = (floor_record : trace_record ℝ Unit).normal + vzero :=
  (lambertian_scatter_rule Real.sqrt real_sqrtSpec Real.pi
    (fun _ _ => vec3.mk (1 / 2) (1 / 2) (1 / 2)) ray_grazing floor_record vzero blank_out
    (length_up real_sqrtSpec)
    (by simp [vec3.length, vzero])).2.1

/-- The variants other than isotropic write `pdf` and the value is positive: for a
unit normal, `|r| < 1` and `ONE_PI > 0`, the `pdf` after the call does not depend on
the caller's value and is `> 0`. -/
theorem scatter_pdf_written_positive {sqrt : F → F} (hs : SqrtSpec sqrt) (ONE_PI : F)
    (hpi : 0 < ONE_PI) (r_in : ray3 F) (record : trace_record F M) (rnd : vec3 F) (u : F)
    (junk : vec3 F) (out out1 : scatter_out F)
    (hn : record.normal.length sqrt = 1) (hr : rnd.length sqrt < 1) (m : material F)
    (hm : ∀ albedo, m ≠ material.isotropic albedo)
    (hit : (m.scatter sqrt ONE_PI r_in record rnd u junk out).1 = true) :
    0 < (m.scatter sqrt ONE_PI r_in record rnd u junk out).2.pdf ∧
    (m.scatter sqrt ONE_PI r_in record rnd u junk out).2.pdf
      = (m.scatter sqrt ONE_PI r_in record rnd u junk out1).2.pdf := by
  cases m with
  | isotropic albedo => exact absurd rfl (hm albedo)
  | lambertian albedo =>
    simp only [material.scatter, lambertian_pdf]
    exact ⟨div_pos (lambertian_cosine_pos hs hn hr) hpi, trivial⟩
  | transmissive albedo ior =>
    simp only [material.scatter, transmissive_scatter_eq]
    exact ⟨zero_lt_one, trivial⟩
  | metal albedo fuzz => exact ⟨zero_lt_one, rfl⟩
  | dielectric albedo ior =>
    simp only [material.scatter, dielectric_scatter_eq]
    exact ⟨zero_lt_one, trivial⟩
  | diffuse_light color => cases hit
  | diffuse_texlight color => cases hit

/-- C13 (well-defined pdf on success), the code at the failing input:
`isotropic::scatter` returns `true` and never assigns `pdf`, so the caller's value
comes back unchanged; with a caller holding `pdf = 0` the pair `continue = true`,
`pdf = 0` is reported. -/
theorem isotropic_scatter_leaves_pdf :
    (∀ (sqrt : F → F) (ONE_PI : F) (albedo : texture F) (r_in : ray3 F)
        (record : trace_record F M) (rnd : vec3 F) (u : F) (junk : vec3 F)
        (out : scatter_out F),
      ((material.isotropic albedo).scatter sqrt ONE_PI r_in record rnd u junk out).1 = true ∧
      ((material.isotropic albedo).scatter sqrt ONE_PI r_in record rnd u junk out).2.pdf
        = out.pdf) ∧
    (isotropic.scatter (fun _ _ => vec3.mk (1 : ℚ) 1 1) ray_through
        (floor_record : trace_record ℚ Unit) vzero blank_out).1 = true ∧
    (isotropic.scatter (fun _ _ => vec3.mk (1 : ℚ) 1 1) ray_through
        (floor_record : trace_record ℚ Unit) vzero blank_out).2.pdf = 0 :=
  ⟨fun _ _ _ _ _ _ _ _ _ => ⟨rfl, rfl⟩, rfl, rfl⟩

/-- C14 (emitter behaviour): `diffuse_light::scatter` returns `false` for every
incoming ray and record, also through the dispatch, and `diffuse_light::emit`
returns the color given to the constructor for every `u`, `v` and `p`. -/
theorem diffuse_light_emitter :
    (∀ (color : vec3 F) (r_in : ray3 F) (record : trace_record F M) (out : scatter_out F),
      (diffuse_light.scatter color r_in record out).1 = false) ∧
    (∀ (sqrt : F → F) (ONE_PI : F) (color : vec3 F) (r_in : ray3 F)
        (record : trace_record F M) (rnd : vec3 F) (u : F) (junk : vec3 F)
        (out : scatter_out F),
      ((material.diffuse_light color).scatter sqrt ONE_PI r_in record rnd u junk out).1
        = false) ∧
    (∀ (color : vec3 F) (u v : F) (p : vec3 F), diffuse_light.emit color u v p = color) :=
  ⟨fun _ _ _ _ => rfl, fun _ _ _ _ _ _ _ _ _ => rfl, fun _ _ _ _ => rfl⟩

theorem quad_disc_parallel : quad_disc unit_sphere (ray_parallel : ray3 F) = -24 := by
  simp [quad_disc, quad_a, quad_b, quad_c, dot, ray_parallel, unit_sphere, sphere3.getCenter,
    vzero]
  norm_num

theorem trace_parallel_miss (sqrt : F → F) (t_min t_max : F) (record : trace_record F Unit) :
    unit_sphere.trace sqrt ray_parallel t_min t_max record = (false, record) := by
  rw [trace_eq, quad_disc_parallel, if_neg (by norm_num)]

/-- C15 (no-hit leaves the record untouched): whenever `sphere3::trace` returns
`false`, the record after the call equals the record before the call, field by
field. -/
theorem trace_no_hit_record_untouched (sqrt : F → F) (s : sphere3 F M) (r : ray3 F)
    (t_min t_max : F) (record : trace_record F M)
    (miss : (s.trace sqrt r t_min t_max record).1 = false) :
    (s.trace sqrt r t_min t_max record).2 = record ∧
    (s.trace sqrt r t_min t_max record).2.t = record.t ∧
    (s.trace sqrt r t_min t_max record).2.position = record.position ∧
    (s.trace sqrt r t_min t_max record).2.normal = record.normal ∧
    (s.trace sqrt r t_min t_max record).2.mat = record.mat := by
  have e : (s.trace sqrt r t_min t_max record).2 = record := by
    rw [trace_eq] at miss ⊢
    split_ifs at miss ⊢ <;> rfl
  rw [e]
  exact ⟨rfl, rfl, rfl, rfl, rfl⟩

/-- Witness of C15: the ray from `(0,0,-5)` along `(0,1,0)` misses the unit sphere,
and the record comes back as it was passed. -/
theorem trace_no_hit_record_untouched_witness :
    (unit_sphere.trace (fun x => x) (ray_parallel : ray3 ℚ) 0 1000 blank_record).2
      = blank_record :=
  (trace_no_hit_record_untouched (fun x => x) unit_sphere (ray_parallel : ray3 ℚ) 0 1000
    blank_record (by rw [trace_parallel_miss])).1

/-- C16 (end-to-end hit scenario): on the unit sphere at the origin at rest, with the
ray from `(0,0,-5)` along `(0,0,1)` and the window `t_min = 0.001`, `t_max = 1000`,
`sphere3::trace` reports a hit with `t = 4`, position `(0,0,-1)` and normal
`(0,0,-1)`. -/
theorem trace_end_to_end_hit (sqrt : F → F) (hs : SqrtSpec sqrt)
    (record : trace_record F Unit) :
    (unit_sphere.trace sqrt ray_through (1 / 1000) 1000 record).1 = true ∧
    (unit_sphere.trace sqrt ray_through (1 / 1000) 1000 record).2.t = 4 ∧
    (unit_sphere.trace sqrt ray_through (1 / 1000) 1000 record).2.position
      = vec3.mk 0 0 (-1) ∧
    (unit_sphere.trace sqrt ray_through (1 / 1000) 1000 record).2.normal
      = vec3.mk 0 0 (-1) := by
  have e : unit_sphere.trace sqrt ray_through (1 / 1000) 1000 record
      = (true, hit_record unit_sphere ray_through record 4) := by
    rw [trace_eq, quad_disc_through, root_minus_through hs]
    norm_num
  rw [e]
  refine ⟨rfl, rfl, ?_, ?_⟩
  · apply vec3.ext_comp <;>
      simp [hit_record, ray3.point_at_parameter, ray_through]
    norm_num
  · apply vec3.ext_comp <;>
      simp [hit_record, ray3.point_at_parameter, ray_through, unit_sphere, sphere3.getCenter,
        vzero]
    norm_num

/-- Witness of C16: the scenario over the reals with the real square root. -/
theorem trace_end_to_end_hit_witness :
    (unit_sphere.trace Real.sqrt (ray_through : ray3 ℝ) (1 / 1000) 1000 blank_record).1 = true ∧
    (unit_sphere.trace Real.sqrt (ray_through : ray3 ℝ) (1 / 1000) 1000 blank_record).2.t = 4 ∧
    (unit_sphere.trace Real.sqrt (ray_through : ray3 ℝ) (1 / 1000) 1000 blank_record).2.position
      = vec3.mk 0 0 (-1) ∧
    (unit_sphere.trace Real.sqrt (ray_through : ray3 ℝ) (1 / 1000) 1000 blank_record).2.normal
      = vec3.mk 0 0 (-1) :=
  trace_end_to_end_hit Real.sqrt real_sqrtSpec blank_record

/-- C17 (energy non-amplification): `lambertian::scatter` returns as attenuation the
texture sample at the hit, `metal::scatter` and `dielectric::scatter` the constant
albedo, unchanged; hence if every albedo channel lies in `[0,1]`, so does every
channel of the returned attenuation. -/
theorem attenuation_is_albedo :
    (∀ (sqrt : F → F) (ONE_PI : F) (albedo : texture F) (r_in : ray3 F)
        (record : trace_record F M) (rnd : vec3 F) (out : scatter_out F),
      (lambertian.scatter sqrt ONE_PI albedo r_in record rnd out).2.attenuation
        = albedo record.texcoord record.position ∧
      (channels_in_unit (albedo record.texcoord record.position) →
        channels_in_unit
          (lambertian.scatter sqrt ONE_PI albedo r_in record rnd out).2.attenuation)) ∧
    (∀ (sqrt : F → F) (albedo : vec3 F) (fuzz : F) (r_in : ray3 F)
        (record : trace_record F M) (rnd : vec3 F) (out : scatter_out F),
      (metal.scatter sqrt albedo fuzz r_in record rnd out).2.attenuation = albedo ∧
      (channels_in_unit albedo →
        channels_in_unit (metal.scatter sqrt albedo fuzz r_in record rnd out).2.attenuation)) ∧
    (∀ (sqrt : F → F) (albedo : vec3 F) (ior : F) (r_in : ray3 F)
        (record : trace_record F M) (u : F) (junk : vec3 F) (out : scatter_out F),
      (dielectric.scatter sqrt albedo ior r_in record u junk out).2.attenuation = albedo ∧
      (channels_in_unit albedo →
        channels_in_unit
          (dielectric.scatter sqrt albedo ior r_in record u junk out).2.attenuation)) := by
  refine ⟨?_, ?_, ?_⟩
  · intro sqrt ONE_PI albedo r_in record rnd out
    exact ⟨rfl, fun h => h⟩
  · intro sqrt albedo fuzz r_in record rnd out
    exact ⟨rfl, fun h => h⟩
  · intro sqrt albedo ior r_in record u junk out
    have e : (dielectric.scatter sqrt albedo ior r_in record u junk out).2.attenuation
        = albedo := by
      rw [dielectric_scatter_eq]
    rw [e]
    exact ⟨rfl, fun h => h⟩

/-! ## Mirror reflection, refraction and the reflection probability -/

theorem reflect_dot_self (v n : vec3 F) (hn : dot n n = 1) :
    dot (metal.reflect v n) (metal.reflect v n) = dot v v := by
  have e : dot (metal.reflect v n) (metal.reflect v n)
      = dot v v + 4 * (dot v n * dot v n) * (dot n n - 1) := by
    simp only [metal.reflect, dot, vec3.sub_x, vec3.sub_y, vec3.sub_z, vec3.smul_x, vec3.smul_y,
      vec3.smul_z]
    ring
  rw [e, hn]
  ring

theorem reflect_dot_normal (v n : vec3 F) (hn : dot n n = 1) :
    dot (metal.reflect v n) n = -dot v n := by
  have e : dot (metal.reflect v n) n = dot v n - 2 * dot v n * dot n n := by
    simp only [metal.reflect, dot, vec3.sub_x, vec3.sub_y, vec3.sub_z, vec3.smul_x, vec3.smul_y,
      vec3.smul_z]
    ring
  rw [e, hn]
  ring

theorem metal_mirror_direction (sqrt : F → F) (albedo : vec3 F) (r_in : ray3 F)
    (record : trace_record F M) (rnd : vec3 F) (out : scatter_out F) :
    (metal.scatter sqrt albedo 0 r_in record rnd out).2.scattered.direction
      = metal.reflect (unit_vector sqrt r_in.direction) record.normal := by
  apply vec3.ext_comp <;>
    simp only [metal.scatter, vec3.add_x, vec3.add_y, vec3.add_z, vec3.smul_x, vec3.smul_y,
      vec3.smul_z, zero_mul, add_zero]

/-- C18 (perfect mirror at `fuzz = 0`): for a unit-length normal `n` and an incoming
ray with non-zero direction `d`, `metal::scatter` with `fuzz = 0` produces the
direction `reflect(unit(d), n)` whatever the sphere sample, that direction has
length 1 and satisfies `dot(scattered.direction, n) = -dot(unit(d), n)`, and the
scatter is accepted if and only if `dot(d, n) < 0`. -/
theorem metal_perfect_mirror (sqrt : F → F) (hs : SqrtSpec sqrt) (albedo : vec3 F)
    (r_in : ray3 F) (record : trace_record F M) (rnd rnd1 : vec3 F) (out : scatter_out F)
    (hn : record.normal.length sqrt = 1) (hdir : r_in.direction ≠ vzero) :
    (metal.scatter sqrt albedo 0 r_in record rnd out).2.scattered.direction
      = (metal.scatter sqrt albedo 0 r_in record rnd1 out).2.scattered.direction ∧
    vec3.length sqrt (metal.scatter sqrt albedo 0 r_in record rnd out).2.scattered.direction
      = 1 ∧
    dot (metal.scatter sqrt albedo 0 r_in record rnd out).2.scattered.direction record.normal
      = -dot (unit_vector sqrt r_in.direction) record.normal ∧
    ((metal.scatter sqrt albedo 0 r_in record rnd out).1 = true ↔
      dot r_in.direction record.normal < 0) := by
  have hn1 := dot_self_of_length_one hs hn
  have hl := length_pos hs hdir
  have hdot : dot (metal.scatter sqrt albedo 0 r_in record rnd out).2.scattered.direction
      record.normal = -dot (unit_vector sqrt r_in.direction) record.normal := by
    rw [metal_mirror_direction, reflect_dot_normal _ _ hn1]
  refine ⟨?_, ?_, hdot, ?_⟩
  · rw [metal_mirror_direction, metal_mirror_direction]
  · rw [metal_mirror_direction]
    apply length_of_dot_self_one hs
    rw [reflect_dot_self _ _ hn1]
    exact unit_vector_dot_self hs hdir
  · have hacc : (metal.scatter sqrt albedo 0 r_in record rnd out).1 = true ↔
        0 < dot (metal.scatter sqrt albedo 0 r_in record rnd out).2.scattered.direction
          record.normal := by
      simp only [metal.scatter, decide_eq_true_eq, gt_iff_lt]
    rw [hacc, hdot, dot_unit_vector, neg_pos, div_neg_iff]
    constructor
    · rintro (⟨_, h⟩ | ⟨h, _⟩)
      · exact absurd hl (not_lt.mpr h.le)
      · exact h
    · intro h
      exact Or.inr ⟨h, hl⟩

/-- Witness of C18: over the reals, a mirror hit by the grazing ray along `(24,-7,0)`
on the surface with normal `(0,1,0)`: the scattered direction has length 1. -/
theorem metal_perfect_mirror_witness :
    vec3.length Real.sqrt
      (metal.scatter Real.sqrt (vec3.mk 1 1 1) 0 (ray_grazing : ray3 ℝ)
        (floor_record : trace_record ℝ Unit) vzero blank_out).2.scattered.direction = 1 :=
  (metal_perfect_mirror Real.sqrt real_sqrtSpec (vec3.mk 1 1 1) ray_grazing floor_record vzero
    vzero blank_out (length_up real_sqrtSpec) ray_grazing_direction_ne).2.1

theorem snell_refracted_dot_normal (sqrt : F → F) (k : F) (uv n : vec3 F)
    (hn : dot n n = 1) :
    dot (snell_refracted sqrt k uv n) n = -sqrt (1 - k ^ 2 * (1 - dot uv n ^ 2)) := by
  have e : dot (snell_refracted sqrt k uv n) n
      = k * (dot uv n - dot n n * dot uv n)
        - dot n n * sqrt (1 - k ^ 2 * (1 - dot uv n ^ 2)) := by
    simp only [snell_refracted, dot, vec3.sub_x, vec3.sub_y, vec3.sub_z, vec3.smul_x,
      vec3.smul_y, vec3.smul_z, vec3.muls_x, vec3.muls_y, vec3.muls_z]
    ring
  rw [e, hn]
  ring

theorem snell_refracted_perp (sqrt : F → F) (k : F) (uv n : vec3 F) (hn : dot n n = 1) :
    snell_refracted sqrt k uv n - dot (snell_refracted sqrt k uv n) n * n
      = k * (uv - dot uv n * n) := by
  rw [snell_refracted_dot_normal sqrt k uv n hn]
  apply vec3.ext_comp <;>
    (simp only [snell_refracted, vec3.sub_x, vec3.sub_y, vec3.sub_z, vec3.smul_x,
      vec3.smul_y, vec3.smul_z, vec3.muls_x, vec3.muls_y, vec3.muls_z]
     ring)

theorem snell_refracted_dot_self {sqrt : F → F} (hs : SqrtSpec sqrt) (k : F) (uv n : vec3 F)
    (huv : dot uv uv = 1) (hn : dot n n = 1)
    (hD : 0 < 1 - k ^ 2 * (1 - dot uv n ^ 2)) :
    dot (snell_refracted sqrt k uv n) (snell_refracted sqrt k uv n) = 1 := by
  have hq := (hs _ hD.le).2
  have e : dot (snell_refracted sqrt k uv n) (snell_refracted sqrt k uv n)
      = k ^ 2 * (dot uv uv - 2 * dot uv n ^ 2 + dot uv n ^ 2 * dot n n)
        - 2 * k * sqrt (1 - k ^ 2 * (1 - dot uv n ^ 2)) * (dot uv n - dot uv n * dot n n)
        + dot n n * (sqrt (1 - k ^ 2 * (1 - dot uv n ^ 2))
            * sqrt (1 - k ^ 2 * (1 - dot uv n ^ 2))) := by
    simp only [snell_refracted, dot, vec3.sub_x, vec3.sub_y, vec3.sub_z, vec3.smul_x,
      vec3.smul_y, vec3.smul_z, vec3.muls_x, vec3.muls_y, vec3.muls_z]
    ring
  rw [e, hq, huv, hn]
  ring

/-- C19 (refraction obeys Snell's law): for non-zero `v`, unit-length `n` and any
`ni_over_nt`, whenever `refract` succeeds the discriminant is positive, the
refracted vector has length exactly 1, its component along `n` is
`-sqrt(discriminant)`, which is negative, and its component perpendicular to `n` is
`ni_over_nt` times the perpendicular component of `unit(v)`; `transmissive::refract`
computes the same result. -/
theorem refract_snell (sqrt : F → F) (hs : SqrtSpec sqrt) (v n : vec3 F) (ni_over_nt : F)
    (junk : vec3 F) (hv : v ≠ vzero) (hn : n.length sqrt = 1)
    (hsucc : (dielectric.refract sqrt v n ni_over_nt junk).1 = true) :
    0 < 1 - ni_over_nt ^ 2 * (1 - dot (unit_vector sqrt v) n ^ 2) ∧
    vec3.length sqrt (dielectric.refract sqrt v n ni_over_nt junk).2 = 1 ∧
    dot (dielectric.refract sqrt v n ni_over_nt junk).2 n
      = -sqrt (1 - ni_over_nt ^ 2 * (1 - dot (unit_vector sqrt v) n ^ 2)) ∧
    dot (dielectric.refract sqrt v n ni_over_nt junk).2 n < 0 ∧
    (dielectric.refract sqrt v n ni_over_nt junk).2
        - dot (dielectric.refract sqrt v n ni_over_nt junk).2 n * n
      = ni_over_nt * (unit_vector sqrt v - dot (unit_vector sqrt v) n * n) ∧
    transmissive.refract sqrt v n ni_over_nt junk = dielectric.refract sqrt v n ni_over_nt junk := by
  have hn1 := dot_self_of_length_one hs hn
  have huv := unit_vector_dot_self hs hv
  have hsame : transmissive.refract sqrt v n ni_over_nt junk
      = dielectric.refract sqrt v n ni_over_nt junk := rfl
  rw [dielectric_refract_eq] at hsucc ⊢
  by_cases hD : 0 < 1 - ni_over_nt ^ 2 * (1 - dot (unit_vector sqrt v) n ^ 2)
  · rw [if_pos hD]
    have hdn := snell_refracted_dot_normal sqrt ni_over_nt (unit_vector sqrt v) n hn1
    refine ⟨hD, ?_, hdn, ?_, snell_refracted_perp sqrt ni_over_nt _ n hn1, ?_⟩
    · exact length_of_dot_self_one hs (snell_refracted_dot_self hs ni_over_nt _ n huv hn1 hD)
    · rw [hdn]
      exact neg_neg_of_pos (hs.pos hD)
    · rw [hsame, dielectric_refract_eq, if_pos hD]
  · rw [if_neg hD] at hsucc
    cases hsucc

theorem refract_grazing_succeeds {sqrt : F → F} (hs : SqrtSpec sqrt) (junk : vec3 F) :
    (dielectric.refract sqrt (vec3.mk 24 (-7) 0) (vec3.mk 0 1 0) (1 / 2) junk).1 = true := by
  have hdot : dot (unit_vector sqrt (vec3.mk (24 : F) (-7) 0)) (vec3.mk 0 1 0) = -7 / 25 := by
    rw [dot_unit_vector, length_grazing hs]
    simp [dot]
  rw [dielectric_refract_eq, hdot, if_pos (by norm_num)]

/-- Witness of C19: over the reals, the direction `(24,-7,0)` refracted at the normal
`(0,1,0)` with relative index `1/2`: refraction succeeds and the refracted vector
has length 1. -/
theorem refract_snell_witness :
    vec3.length Real.sqrt
      (dielectric.refract Real.sqrt (vec3.mk 24 (-7) 0) (vec3.mk 0 1 0) (1 / 2) vzero).2 = 1 :=
  (refract_snell Real.sqrt real_sqrtSpec (vec3.mk 24 (-7) 0) (vec3.mk 0 1 0) (1 / 2) vzero
    ray_grazing_direction_ne (length_up real_sqrtSpec)
    (refract_grazing_succeeds real_sqrtSpec vzero)).2.1

/-- The local `reflect_prob` of `dielectric::scatter2` in the vocabulary of the
statements. -/
theorem dielectric_reflect_prob_eq (sqrt : F → F) (ior : F) (r_in : ray3 F)
    (record : trace_record F M) (junk : vec3 F) :
    dielectric.reflect_prob sqrt ior r_in record junk =
      if 0 < snell_disc sqrt ior r_in.direction record.normal then
        dielectric.schlick (schlick_cosine sqrt ior r_in.direction record.normal) ior
      else 1 := by
  unfold dielectric.reflect_prob
  simp only [dielectric_refract_eq, snell_disc, schlick_cosine, relative_index, effective_normal,
    gt_iff_lt]
  by_cases hdn : 0 < dot r_in.direction record.normal
  · simp only [if_pos hdn]
    by_cases hd : 0 < 1 - ior ^ 2 * (1 - dot (unit_vector sqrt r_in.direction) (-record.normal) ^ 2)
    · simp only [if_pos hd, if_true]
    · simp only [if_neg hd, Bool.false_eq_true, if_false]
  · simp only [if_neg hdn]
    by_cases hd : 0 < 1 - (1 / ior) ^ 2 * (1 - dot (unit_vector sqrt r_in.direction) record.normal ^ 2)
    · simp only [if_pos hd, if_true]
    · simp only [if_neg hd, Bool.false_eq_true, if_false]

/-- The comparison in `dielectric::scatter2` is against `dielectric.reflect_prob`. -/
theorem dielectric_scatter_compares_reflect_prob (sqrt : F → F) (albedo : vec3 F) (ior : F)
    (r_in : ray3 F) (record : trace_record F M) (u : F) (junk : vec3 F) (out : scatter_out F) :
    (dielectric.scatter sqrt albedo ior r_in record u junk out).2.scattered.direction =
      if u < dielectric.reflect_prob sqrt ior r_in record junk then
        dielectric.reflect r_in.direction record.normal
      else if 0 < snell_disc sqrt ior r_in.direction record.normal then
        snell_refracted sqrt (relative_index ior r_in.direction record.normal)
          (unit_vector sqrt r_in.direction) (effective_normal r_in.direction record.normal)
      else junk := by
  rw [dielectric_scatter_eq, dielectric_reflect_prob_eq]

theorem pow_five_le_one {x : F} (hx : x ≤ 1) : x ^ 5 ≤ 1 := by
  by_cases h0 : 0 ≤ x
  · exact pow_le_one₀ h0 hx
  · have hneg : x < 0 := not_le.mp h0
    have h4 : 0 ≤ x ^ 4 := by positivity
    have e : x ^ 5 = x ^ 4 * x := by ring
    rw [e]
    nlinarith

theorem schlick_r0_nonneg (ior : F) : 0 ≤ (1 - ior) / (1 + ior) * ((1 - ior) / (1 + ior)) :=
  mul_self_nonneg _

theorem schlick_le_one (ior c : F) (hior : 0 < ior) (hc : 0 ≤ c) :
    dielectric.schlick c ior ≤ 1 := by
  have hr := schlick_r0_le_one ior hior.le
  have hp : (1 - c) ^ 5 ≤ 1 := pow_five_le_one (by linarith)
  have h := mul_le_mul_of_nonneg_left hp (sub_nonneg.mpr hr)
  simp only [dielectric.schlick]
  linarith

theorem schlick_nonneg (ior c : F) (hior : 0 < ior) (hc : c ≤ 1) :
    0 ≤ dielectric.schlick c ior := by
  have hr := schlick_r0_le_one ior hior.le
  have hr0 := schlick_r0_nonneg ior
  have hp : 0 ≤ (1 - c) ^ 5 := pow_nonneg (by linarith) 5
  have h := mul_nonneg (sub_nonneg.mpr hr) hp
  simp only [dielectric.schlick]
  linarith

theorem neg_dot_le_length {sqrt : F → F} (hs : SqrtSpec sqrt) (d n : vec3 F)
    (hn : dot n n = 1) : -dot d n ≤ d.length sqrt := by
  have cs := cauchy_schwarz d n
  rw [hn, mul_one, ← length_mul_self hs d] at cs
  have h0 := length_nonneg hs d
  by_contra hcon
  have h1 : d.length sqrt < -dot d n := not_le.mp hcon
  nlinarith

theorem reflect_prob_up {sqrt : F → F} (hs : SqrtSpec sqrt) (junk : vec3 F) :
    dielectric.reflect_prob sqrt 2 (ray_up : ray3 F) (floor_record : trace_record F Unit) junk
      = -7 / 9 := by
  have hl := length_up hs
  have hd : snell_disc sqrt 2 (ray_up : ray3 F).direction
      (floor_record : trace_record F Unit).normal = 1 := by
    simp [snell_disc, relative_index, effective_normal, unit_vector, ray_up, floor_record,
      dot, hl]
  have hc : schlick_cosine sqrt 2 (ray_up : ray3 F).direction
      (floor_record : trace_record F Unit).normal = 2 := by
    simp [schlick_cosine, ray_up, floor_record, dot, hl]
  rw [dielectric_reflect_prob_eq, hd, hc, if_pos zero_lt_one]
  simp only [dielectric.schlick]
  norm_num

/-- Counterexample to C20 as stated: over the reals, glass with `ior = 2`, the
surface with unit normal `(0,1,0)` and the ray leaving it along `(0,1,0)`:
refraction succeeds, the cosine passed to `schlick` is `ior * 1 = 2`, and
`reflect_prob = -7/9`, outside `[0, 1]`. -/
theorem reflect_prob_negative_on_exit :
    (0 : ℝ) < 2 ∧
    vec3.length Real.sqrt (floor_record : trace_record ℝ Unit).normal = 1 ∧
    (ray_up : ray3 ℝ).direction ≠ vzero ∧
    0 < dot (ray_up : ray3 ℝ).direction (floor_record : trace_record ℝ Unit).normal ∧
    dielectric.reflect_prob Real.sqrt 2 (ray_up : ray3 ℝ) (floor_record : trace_record ℝ Unit)
      vzero = -7 / 9 ∧
    ¬ (0 ≤ dielectric.reflect_prob Real.sqrt 2 (ray_up : ray3 ℝ)
          (floor_record : trace_record ℝ Unit) vzero ∧
        dielectric.reflect_prob Real.sqrt 2 (ray_up : ray3 ℝ)
          (floor_record : trace_record ℝ Unit) vzero ≤ 1) := by
  have hp := reflect_prob_up real_sqrtSpec (vzero : vec3 ℝ)
  refine ⟨by norm_num, length_up real_sqrtSpec, ?_, ?_, hp, ?_⟩
  · intro h
    have hy := congrArg vec3.y h
    simp [ray_up, vzero] at hy
  · simp [dot, ray_up, floor_record]
  · rw [hp]
    norm_num

/-- C20 amended (reflection probability): for `ior > 0`, a unit-length normal and an
incoming ray with non-zero direction, the value `reflect_prob` that
`dielectric::scatter2` compares against the uniform sample is at most 1; it lies in
`[0, 1]` for rays entering the surface (`dot(d, n) <= 0`), and for rays exiting the
surface whenever the cosine passed to `schlick`, `ior*dot(d, n)/|d|`, is at most 1. -/
theorem reflect_prob_bounds (sqrt : F → F) (hs : SqrtSpec sqrt) (ior : F) (r_in : ray3 F)
    (record : trace_record F M) (junk : vec3 F)
    (hior : 0 < ior) (hn : record.normal.length sqrt = 1) (hdir : r_in.direction ≠ vzero) :
    dielectric.reflect_prob sqrt ior r_in record junk ≤ 1 ∧
    (dot r_in.direction record.normal ≤ 0 →
      0 ≤ dielectric.reflect_prob sqrt ior r_in record junk) ∧
    (0 < dot r_in.direction record.normal →
      ior * dot r_in.direction record.normal / r_in.direction.length sqrt ≤ 1 →
      0 ≤ dielectric.reflect_prob sqrt ior r_in record junk) := by
  have hn1 := dot_self_of_length_one hs hn
  have hl := length_pos hs hdir
  have hcos0 : 0 ≤ schlick_cosine sqrt ior r_in.direction record.normal := by
    unfold schlick_cosine
    by_cases hdn : 0 < dot r_in.direction record.normal
    · rw [if_pos hdn]
      exact div_nonneg (mul_nonneg hior.le hdn.le) hl.le
    · rw [if_neg hdn]
      exact div_nonneg (neg_nonneg.mpr (not_lt.mp hdn)) hl.le
  rw [dielectric_reflect_prob_eq]
  refine ⟨?_, ?_, ?_⟩
  · split_ifs
    · exact schlick_le_one ior _ hior hcos0
    · exact le_refl 1
  · intro hdn
    split_ifs
    · apply schlick_nonneg ior _ hior
      unfold schlick_cosine
      rw [if_neg (not_lt.mpr hdn), div_le_one hl]
      exact neg_dot_le_length hs _ _ hn1
    · exact zero_le_one
  · intro hdn hc
    split_ifs
    · apply schlick_nonneg ior _ hior
      unfold schlick_cosine
      rw [if_pos hdn]
      exact hc
    · exact zero_le_one

/-- Witness of C20 amended: over the reals, the grazing ray along `(24,-7,0)` entering
glass (`ior = 2`) through the surface with normal `(0,1,0)`. -/
theorem reflect_prob_bounds_witness :
    dielectric.reflect_prob Real.sqrt 2 (ray_grazing : ray3 ℝ)
      (floor_record : trace_record ℝ Unit) vzero ≤ 1 :=
  (reflect_prob_bounds Real.sqrt real_sqrtSpec 2 ray_grazing floor_record vzero (by norm_num)
    (length_up real_sqrtSpec) ray_grazing_direction_ne).1

end Mattave
